import Mathlib

/-!
# Verification of the SEO-Blog-Writer content pipeline

A shallow embedding, in Lean 4, of the content-generation pipeline of the
SEO-Blog-Writer repository (files `src/content.py` and `src/seo.py`), together
with theorems settling the specification's claims about it.

Modelling conventions:

* Python strings are modelled through their character lists (`String.data`);
  every Python string primitive used by the code (`strip`, `rfind`, `splitlines`,
  `re.split` on a character class, `re.sub` on the character classes used by
  `slugify`, …) is re-implemented on `List Char` below, and the repository's
  functions are stated on `String` via thin wrappers.
* Python `int` arithmetic is modelled by `Nat` (all quantities involved are
  non-negative; where Python subtraction can go negative the result is only
  ever used under `max`, which coincides with the `Nat`-truncated form —
  noted at each definition).
* Calls to external services (OpenAI chat completions, the embedding service)
  are opaque to the repository; they are modelled as explicit function
  parameters (oracles), so every theorem quantifies over the services'
  possible behaviours.
* Python floating point enters only through fixed literal factors
  (`* 0.12`, `* 0.35`, the `ratio * span` interpolation); each such spot is
  modelled by exact rational/Nat arithmetic with a comment justifying (or
  bounding) the agreement with IEEE double evaluation.
-/

namespace SEOBlog

/-! ## Python string primitives on `List Char` -/

/-- Python's whitespace test for `str.strip` / `\s` (ASCII fragment; the
repository only ever feeds it ASCII whitespace). -/
def isWS (c : Char) : Bool := c.isWhitespace

/-- `str.lstrip()` on characters. -/
def lstripWS (l : List Char) : List Char := l.dropWhile isWS

/-- `str.strip()` (no argument: strip whitespace from both ends). -/
def stripWS (l : List Char) : List Char := (l.dropWhile isWS).rdropWhile isWS

/-- `str.strip(chars)`: strip any of the given characters from both ends. -/
def stripSet (set : List Char) (l : List Char) : List Char :=
  (l.dropWhile (· ∈ set)).rdropWhile (· ∈ set)

/-- `str.strip()` on `String`. -/
def pyStrip (s : String) : String := ⟨stripWS s.data⟩

/-- `re.split` on a single-character class: split at every character satisfying
`p`, keeping empty pieces (exactly `re.split(r"[.!?]", text)`-style splitting). -/
def splitP (p : Char → Bool) : List Char → List (List Char)
  | [] => [[]]
  | c :: rest =>
    if p c then [] :: splitP p rest
    else
      match splitP p rest with
      | [] => [[c]]
      | piece :: pieces => (c :: piece) :: pieces

/-- `str.splitlines()` restricted to `'\n'` separators (the only line
separator produced by the services' plain-text responses): split on `'\n'`,
dropping the final empty piece a trailing newline would produce. -/
def splitlines (l : List Char) : List (List Char) :=
  match splitP (· == '\n') l with
  | [] => []
  | pieces => if pieces.getLast? = some [] then pieces.dropLast else pieces

/-! ## `src/seo.py` : `slugify` -/

/-- The separator class of `slugify`'s second substitution, `[\s_-]`. -/
def isSep (c : Char) : Bool := isWS c || c == '_' || c == '-'

/-- Characters kept by `slugify`'s first substitution,
`re.sub(r"[^a-z0-9\s-]", "", text)`. -/
def keepChar (c : Char) : Bool :=
  ('a' ≤ c && c ≤ 'z') || c.isDigit || isWS c || c == '-'

/-- `re.sub(r"[\s_-]+", "-", ·)`: every maximal run of separator characters
becomes a single hyphen.  The flag records whether we are inside such a run. -/
def collapseAux : Bool → List Char → List Char
  | _, [] => []
  | inSep, c :: rest =>
    if isSep c then
      if inSep then collapseAux true rest else '-' :: collapseAux true rest
    else c :: collapseAux false rest

def collapseSeps (l : List Char) : List Char := collapseAux false l

/-- `slugify` from `src/seo.py`, on character lists:
lowercase, strip, drop characters outside `[a-z0-9\s-]`, collapse separator
runs to single hyphens, strip hyphens. -/
def slugChars (l : List Char) : List Char :=
  let t1 := stripWS (l.map Char.toLower)
  let t2 := t1.filter keepChar
  let t3 := collapseSeps t2
  (t3.dropWhile (· == '-')).rdropWhile (· == '-')

/-- `slugify` from `src/seo.py`.  (Python's `str.lower()` is modelled on the
ASCII range; non-ASCII characters are removed by the first substitution under
either reading.) -/
def slugify (text : String) : String := ⟨slugChars text.data⟩

/-! ## `src/seo.py` : `clamp` -/

/-- `str.rfind(" ")`: index of the last space, if any. -/
def rfindSpace : List Char → Option ℕ
  | [] => none
  | c :: rest =>
    match rfindSpace rest with
    | some i => some (i + 1)
    | none => if c = ' ' then some 0 else none

/-- `clamp` from `src/seo.py`, on character lists: if the text fits, keep it;
otherwise slice to `max_len`, right-strip whitespace (this is Python's
`sliced`, written out below), and cut at the last space if one exists. -/
def clampChars (cs : List Char) (max_len : ℕ) : List Char :=
  if cs.length ≤ max_len then cs
  else
    match rfindSpace ((cs.take max_len).rdropWhile isWS) with
    | none => (cs.take max_len).rdropWhile isWS
    | some i => ((cs.take max_len).rdropWhile isWS).take i

/-- `clamp` from `src/seo.py` (Python indexes strings by characters, matching
`List Char`). -/
def clamp (text : String) (max_len : ℕ) : String := ⟨clampChars text.data max_len⟩

/-! ## `src/content.py` : data model -/

/-- An outline entry produced by `generate_outline`:
the Python dict `level / title / target_words` (level is `"h2"` or `"h3"`). -/
structure OutlineNode where
  level : String
  title : String
  target_words : ℕ
deriving DecidableEq, Repr, Inhabited

/-- A drafted article section: the Python dict `title / level / text`. -/
structure Sec where
  title : String
  level : String
  text : String
deriving DecidableEq, Repr, Inhabited

/-! ## `src/content.py` : `generate_outline` -/

/-- The fixed, topic-parameterised body-section title templates
(`core_sections` in `generate_outline`). -/
def core_sections (topic : String) : List String :=
  [ "Understanding " ++ topic,
    "Key Benefits of " ++ topic,
    "Core Concepts and Terminology",
    "How to Get Started with " ++ topic,
    "Best Practices for " ++ topic,
    "Common Pitfalls and How to Avoid Them",
    "Tools and Resources for " ++ topic,
    "Advanced Tips and Strategies",
    "Real-World Examples and Case Studies" ]

/-- The fixed H3 subsection title variants (`h3_variants` in `generate_outline`). -/
def h3_variants : List String :=
  ["Key Takeaways", "Action Steps", "Quick Checklist", "Pro Tips", "Summary Points"]

/-- The H2 section count of `generate_outline`:
`5` at or below 700 words, `10` at or above 3000, linearly interpolated,
truncated to int and clamped to `[5, 10]`, in between.

Python computes `int(5 + ((t - 700) / 2300) * 5)` in floating point; for every
`700 < t < 3000` this equals `5 + (t - 700) * 5 / 2300` in exact floor
arithmetic: away from multiples of 460 the exact value is at least `1/460`
from any integer while the accumulated double rounding error is below
`10^-12`, and at `t = 700 + 460k` (`k = 1, 2, 3, 4`) the doubly rounded
product `fl(fl((t-700)/2300) * 5)` is exactly the integer `k`. -/
def num_h2_of (target_word_count : ℕ) : ℕ :=
  if target_word_count ≤ 700 then 5
  else if 3000 ≤ target_word_count then 10
  else min 10 (max 5 (5 + (target_word_count - 700) * 5 / 2300))

/-- `max(120, int(target * 0.12))`, the Introduction/Conclusion word budget.
`int(t * 0.12)` in IEEE double equals `⌊12 t / 100⌋` for every admissible `t`:
the double nearest `0.12` is below `0.12` by `δ = 0.32·2⁻⁵⁶`, and
`t·δ < ulp(0.12·t)/2`, so the product always rounds back onto the exact value's
integer side. -/
def introWords (target_word_count : ℕ) : ℕ :=
  max 120 (target_word_count * 12 / 100)

/-- The per-H2-section body budget of `generate_outline`.
`body_words = max(200, t - intro - conclusion)` (the Python subtraction can go
negative only when the `max` ignores it, so `Nat` truncation agrees), and
`per_section = max(120, int(body_words / max(1, num_h2)))`; the float division
of two exactly-representable ints rounds onto `⌊body/num⌋` because the exact
quotient is either an integer or at least `1/10` away from one. -/
def bodyWords (target_word_count : ℕ) : ℕ :=
  max 200 (target_word_count - introWords target_word_count - introWords target_word_count)

def perSection (target_word_count : ℕ) : ℕ :=
  max 120 (bodyWords target_word_count / max 1 (num_h2_of target_word_count))

/-- The H3 word budget `max(80, int(per_section * 0.35))`.
Here the double product `per_section * 0.35` can round one below the exact
`⌊35 p / 100⌋` for some large `p` (first reachable around `p = 2580`); the
value is only ever used under `max 80`, and no claim depends on its exact
size, only on the `≥ 80` bound, which holds under either arithmetic. -/
def h3Words (target_word_count : ℕ) : ℕ :=
  max 80 (perSection target_word_count * 35 / 100)

/-- The outline as assembled before H3 insertion: Introduction, then body
sections drawn by cycling through `core_sections` (the Python `while` loop
appends body H2 entries until their number reaches `num_h2`, taking titles
`core_sections[i % 9]` for `i = 0, 1, …`, hence exactly `num_h2` of them),
then Conclusion. -/
def outlineBase (topic : String) (target_word_count : ℕ) : List OutlineNode :=
  [⟨"h2", "Introduction", introWords target_word_count⟩]
    ++ (List.range (num_h2_of target_word_count)).map
        (fun i => ⟨"h2", (core_sections topic).getD (i % 9) "", perSection target_word_count⟩)
    ++ [⟨"h2", "Conclusion", introWords target_word_count⟩]

/-- The indices of non-Introduction/Conclusion H2 entries
(`h2_indices` in `generate_outline`). -/
def h2Indices (outline : List OutlineNode) : List ℕ :=
  outline.enum.filterMap fun p =>
    if p.2.level == "h2" && !(p.2.title == "Introduction") && !(p.2.title == "Conclusion")
    then some p.1 else none

/-- `generate_outline` from `src/content.py`.  The final `for` loop inserts an
H3 node at `h2_idx + 1` for the first `max(1, len(h2_indices)//3)` body-H2
indices, each insertion shifting the list exactly as Python's `list.insert`
does (`List.insertIdx`). -/
def generate_outline (topic heading : String) (target_word_count : ℕ) : List OutlineNode :=
  let base := outlineBase topic target_word_count
  let idxs := h2Indices base
  let firstThird := (idxs.take (max 1 (idxs.length / 3))).enum
  firstThird.foldl
    (fun acc jp =>
      List.insertIdx (jp.2 + 1)
        ⟨"h3", h3_variants.getD (jp.1 % 5) "", h3Words target_word_count⟩ acc)
    base

/-! ## `src/content.py` : semantic dedupe / paraphrase

`dedupe_and_paraphrase_sections` consults two external services:

* the embedding service, through `embed_paragraphs` followed by `cosine_sim`
  (a floating-point `dot(a,b)/(|a|·|b|)` on service-returned vectors).  The
  composite `cosine_sim(embs[i], kept_emb)` is a function of the two texts
  only (the service is queried per text); it is modelled by the oracle
  `sim : String → String → ℚ` below.  Note that `embs[i]` is the embedding of
  section `i`'s *original* text (batched up front) while `kept_emb` is the
  embedding of the kept section's *current* text — the model applies `sim` to
  exactly those two texts.
* the chat-completion service, through `paraphrase_text`; the raw completion
  is the oracle `svc : String → Option String` (`none` would be an absent
  `message.content`, handled by `or text`).
-/

/-- `paraphrase_text` from `src/content.py`: the completion's content, or the
input text if the content is missing, stripped of surrounding whitespace.
(The prompt construction and sampling parameters only affect the external
call, which the oracle `svc` abstracts; the trailing `[:]` copy in the caller
is the identity on immutable strings.) -/
def paraphrase_text (svc : String → Option String) (text : String) : String :=
  pyStrip ((svc text).getD text)

/-- One iteration of the dedupe scan: Python's inner `for kept in keep` loop
with its `break` — find the first kept section whose similarity with the
incoming section's (original) text reaches the threshold, and if one exists
replace the text by the paraphrase. -/
def dedupeStep (sim : String → String → ℚ) (svc : String → Option String)
    (threshold : ℚ) (keep : List Sec) (sec : Sec) : Sec :=
  match keep.find? (fun kept => decide (threshold ≤ sim sec.text kept.text)) with
  | some _ => { sec with text := paraphrase_text svc sec.text }
  | none => sec

/-- The outer loop of `dedupe_and_paraphrase_sections`: process sections in
order, appending each processed section to the growing `keep` list. -/
def dedupeGo (sim : String → String → ℚ) (svc : String → Option String)
    (threshold : ℚ) : List Sec → List Sec → List Sec
  | keep, [] => keep
  | keep, sec :: rest =>
    dedupeGo sim svc threshold (keep ++ [dedupeStep sim svc threshold keep sec]) rest

/-- `dedupe_and_paraphrase_sections` from `src/content.py` (threshold default
0.9 at the call site; it is a parameter here as in the source). -/
def dedupe_and_paraphrase_sections (sim : String → String → ℚ)
    (svc : String → Option String) (threshold : ℚ) (sections : List Sec) : List Sec :=
  dedupeGo sim svc threshold [] sections

/-! ## `src/content.py` : polishing -/

/-- `str.replace("**", "")`: delete every (non-overlapping, left-to-right)
occurrence of `**`. -/
def removeBoldMarks : List Char → List Char
  | [] => []
  | '*' :: '*' :: rest => removeBoldMarks rest
  | c :: rest => c :: removeBoldMarks rest

/-- One line of `_strip_markdown_headings`:
`re.sub(r"^(#{1,6})\s+", "", line)` followed by `line.replace("**", "")`.
The regex removes one to six leading hash marks together with the greedy run
of whitespace that must follow them (seven or more hash marks, or no
following whitespace, match nothing). -/
def stripHeadingLine (line : List Char) : List Char :=
  let hashes := line.takeWhile (· == '#')
  let afterHash := line.dropWhile (· == '#')
  let line' :=
    if 1 ≤ hashes.length ∧ hashes.length ≤ 6 ∧ (afterHash.head?.map isWS).getD false
    then afterHash.dropWhile isWS
    else line
  removeBoldMarks line'

/-- `_strip_markdown_headings` from `src/content.py`: process each line,
rejoin with newlines. -/
def strip_markdown_headings (text : String) : String :=
  ⟨List.intercalate ['\n'] ((splitlines text.data).map stripHeadingLine)⟩

/-- The local fallback of `summarize_key_takeaways` (its `except` branch):
split the section text on `[.!?]`, strip each piece, keep the non-empty ones,
and return the first five. -/
def fallback_takeaways (section_text : String) : List String :=
  ((((splitP (fun c => c == '.' || c == '!' || c == '?') section_text.data).map
      stripWS).filter (fun s => !s.isEmpty)).take 5).map (fun l => (⟨l⟩ : String))

/-- `summarize_key_takeaways` from `src/content.py`.  The chat completion is
the oracle `svc` applied to the section title and text: `some out` is a
successful call returning content `out` (an absent content is the empty
string, per `or ""`), `none` is a raised exception.  On success the bullets
are the stripped non-blank lines of the stripped output, each further
stripped of `"- "` characters, the empty ones dropped, truncated to five; on
failure the local fallback above. -/
def summarize_key_takeaways (svc : String → String → Option String)
    (section_title section_text : String) : List String :=
  match svc section_title section_text with
  | some out =>
    let outStripped := stripWS out.data
    let bullets := ((splitlines outStripped).filter
        (fun b => !(stripWS b).isEmpty)).map (stripSet ['-', ' '])
    ((bullets.filter (fun b => !b.isEmpty)).take 5).map (fun l => (⟨l⟩ : String))
  | none => fallback_takeaways section_text

/-- `polish_sections` from `src/content.py`: strip markdown markers from every
section's text; after each H2 section, synthesise key takeaways and—if any
bullets resulted—insert a `"Key Takeaways"` H3 right after it.  The loop
appends one or two output sections per input section, i.e. a `List.bind`. -/
def polish_sections (svc : String → String → Option String) (sections : List Sec) :
    List Sec :=
  sections.flatMap fun s =>
    let clean_text := strip_markdown_headings s.text
    let base : List Sec := [⟨s.title, s.level, clean_text⟩]
    if s.level == "h2" then
      let bullets := summarize_key_takeaways svc s.title clean_text
      if bullets.isEmpty then base
      else base ++ [⟨"Key Takeaways", "h3",
        String.intercalate "\n" (bullets.map (fun b => "- " ++ b))⟩]
    else base

/-! ## `src/content.py` : micro-refinement -/

/-- Python values as produced by `json.loads`: the JSON data model.
(Object keys are unique after parsing; `json.loads` keeps the last duplicate.) -/
inductive JValue where
  | null : JValue
  | bool : Bool → JValue
  | num : ℚ → JValue
  | str : String → JValue
  | arr : List JValue → JValue
  | obj : List (String × JValue) → JValue

/-- `isinstance(·, dict)`. -/
def JValue.isObj : JValue → Bool
  | .obj _ => true
  | _ => false

/-- `isinstance(·, list)`. -/
def JValue.isArr : JValue → Bool
  | .arr _ => true
  | _ => false

/-- `dict.get(key)` on a parsed JSON object (keys unique, so first match). -/
def jlookup (key : String) (fields : List (String × JValue)) : Option JValue :=
  (fields.find? (fun p => p.1 == key)).map (·.2)

/-- `micro_refine_article` from `src/content.py`.  The outgoing payload
(heading, metadata, audience, sections serialised as JSON) and the directive
only shape the external chat request; the external call plus `json.loads` of
its response text is modelled by `response : Option JValue` — `none` when the
response does not parse as JSON (`json.loads` raises).  A parsed non-object
response makes `data.get` raise `AttributeError`, landing in the same
`except` branch, hence also returns the input unchanged.  On an object
response, missing `metadata`/`sections` keys default to the inputs
(`data.get(k, default)`), and the pair is returned only when `new_meta` is a
dict and `new_sections` is a list; otherwise the inputs are returned. -/
def micro_refine_article (heading : String) (metadata : JValue) (sections : JValue)
    (audience : Option String) (response : Option JValue) : JValue × JValue :=
  match response with
  | none => (metadata, sections)
  | some data =>
    match data with
    | .obj fields =>
      let new_meta := (jlookup "metadata" fields).getD metadata
      let new_sections := (jlookup "sections" fields).getD sections
      if new_meta.isObj && new_sections.isArr then (new_meta, new_sections)
      else (metadata, sections)
    | _ => (metadata, sections)

/-! ## `src/content.py` : tagged evidence (`build_tagged_evidence`)

The three classifier regexes are modelled as decidable existential searches
over match positions; for these particular patterns (bounded digit runs with
required word boundaries and literal followers) backtracking search succeeds
if and only if such positions exist, so the models are exact. -/

/-- `\w` (ASCII fragment of Python's unicode word class; the evidence strings
the repository builds are service titles/snippets, and every character class
decision below involves only ASCII neighbours of digit runs). -/
def isWordChar (c : Char) : Bool := c.isAlphanum || c == '_'

/-- A word boundary immediately before position `i`. -/
def boundaryBefore (cs : List Char) (i : ℕ) : Bool :=
  i == 0 || !(isWordChar (cs.getD (i - 1) ' '))

/-- A word boundary immediately after position `j` (exclusive end). -/
def boundaryAfter (cs : List Char) (j : ℕ) : Bool :=
  j == cs.length || !(isWordChar (cs.getD j ' '))

/-- The characters at positions `[i, i+len)` all are digits (and exist). -/
def digitsAt (cs : List Char) (i len : ℕ) : Bool :=
  i + len ≤ cs.length && ((cs.drop i).take len).all Char.isDigit

/-- `re.search(r"\b\d{1,3}%", text)`: one to three digits preceded by a word
boundary and followed by a percent sign. -/
def hasPercent (cs : List Char) : Bool :=
  (List.range cs.length).any fun i =>
    boundaryBefore cs i &&
      (List.range 3).any fun d =>
        digitsAt cs i (d + 1) && cs.getD (i + d + 1) ' ' == '%'

/-- `re.search(r"\b\d{4}\b", text)`: a four-digit run with word boundaries on
both sides. -/
def hasYear4 (cs : List Char) : Bool :=
  (List.range cs.length).any fun i =>
    boundaryBefore cs i && digitsAt cs i 4 && boundaryAfter cs (i + 4)

/-- `re.search(r"\b\d+[,.]\d+\b", text)`: a digit run, a comma or dot, a digit
run, with word boundaries around the whole match. -/
def hasDecimal (cs : List Char) : Bool :=
  (List.range cs.length).any fun i =>
    boundaryBefore cs i &&
      (List.range cs.length).any fun a =>
        digitsAt cs i (a + 1) &&
          (cs.getD (i + a + 1) ' ' == ',' || cs.getD (i + a + 1) ' ' == '.') &&
          (List.range cs.length).any fun b =>
            digitsAt cs (i + a + 2) (b + 1) && boundaryAfter cs (i + a + 2 + b + 1)

/-- `re.search(r"\b\d+\b", text)`: a standalone digit run. -/
def hasBareNumber (cs : List Char) : Bool :=
  (List.range cs.length).any fun i =>
    boundaryBefore cs i &&
      (List.range cs.length).any fun a =>
        digitsAt cs i (a + 1) && boundaryAfter cs (i + a + 1)

/-- The first classifier test: a percentage, a 4-digit year, or a decimal
number (`\b\d{1,3}%|\b\d{4}\b|\b\d+[,.]\d+\b`). -/
def statPattern (text : String) : Bool :=
  hasPercent text.data || hasYear4 text.data || hasDecimal text.data

/-- Quotation marks: `'“' in text or '”' in text or '"' in text`. -/
def quotePattern (text : String) : Bool :=
  text.data.contains '“' || text.data.contains '”' || text.data.contains '"'

/-- `needle in haystack` on character lists (Python substring containment). -/
def containsSub (needle hay : List Char) : Bool :=
  (List.range (hay.length + 1)).any fun i => needle.isPrefixOf (hay.drop i)

/-- `any(k in text.lower() for k in ks)`. -/
def containsAnyLower (text : String) (ks : List String) : Bool :=
  ks.any fun k => containsSub k.data (text.data.map Char.toLower)

/-- The tag chosen by `build_tagged_evidence`'s `if/elif` chain for a given
rendered text. -/
def chooseTag (text : String) : String :=
  if statPattern text then "[stat]"
  else if quotePattern text then "[quote]"
  else if containsAnyLower text ["case study", "case", "example"] then "[case]"
  else if containsAnyLower text ["tool", "platform", "software", "suite"] then "[tool]"
  else if hasBareNumber text.data then "[stat]"
  else "[case]"

/-- One research source as consumed by `build_tagged_evidence`
(`s.get("title")` / `s.get("snippet")` may be absent or `None`). -/
structure Source where
  title : Option String
  snippet : Option String
  url : Option String
deriving Repr

/-- The research bundle (spec §3): only `sources` is read by
`build_tagged_evidence`. -/
structure ResearchBundle where
  sources : List Source
  insights : List String
  keywords : List String

/-- `f"{title} — {snippet}".strip(" —")` applied to the stripped title and
snippet of a source (`(s.get("title") or "")` maps both a missing key, `None`
and `""` to `""`, i.e. `Option.getD ""`). -/
def renderSource (s : Source) : String :=
  ⟨stripSet [' ', '—']
    (stripWS (s.title.getD "").data ++ (" — ".data) ++ stripWS (s.snippet.getD "").data)⟩

/-- The tagged item list before de-duplication: first 12 sources, the empty
rendered texts skipped, each remaining text prefixed with its tag. -/
def evidence_items (research : ResearchBundle) : List String :=
  (research.sources.take 12).filterMap fun s =>
    let text := renderSource s
    if text == "" then none else some (chooseTag text ++ " " ++ text)

/-- The `uniq`/`seen` loop of `build_tagged_evidence`: keep the first
occurrence of each string, preserving order (`seen` is the membership set). -/
def pyDedupGo (seen : List String) : List String → List String
  | [] => []
  | x :: xs => if x ∈ seen then pyDedupGo seen xs else x :: pyDedupGo (x :: seen) xs

def pyDedup (l : List String) : List String := pyDedupGo [] l

/-- `build_tagged_evidence` from `src/content.py`. -/
def build_tagged_evidence (research : ResearchBundle) : List String :=
  (pyDedup (evidence_items research)).take 12

/-! ## Character-class lemmas for `slugify` -/

/-- The characters `slugify` may output: lowercase ASCII letters, digits,
hyphens. -/
def isSlugChar (c : Char) : Bool := ('a' ≤ c && c ≤ 'z') || c.isDigit || c == '-'

/-- `slugify` output may contain no pair of adjacent hyphens. -/
def NoHH (l : List Char) : Prop := List.Chain' (fun a b => ¬(a = '-' ∧ b = '-')) l

/-! ## `clamp` lemmas -/

/-- The first whitespace-delimited word of a text (leading whitespace
skipped). -/
def firstWord (cs : List Char) : List Char :=
  (cs.dropWhile isWS).takeWhile (fun c => !(isWS c))

/-- The number of body H2 sections (H2 entries other than Introduction and
Conclusion) of an outline. -/
def bodyH2Count (outline : List OutlineNode) : ℕ :=
  (outline.filter (fun nd => nd.level == "h2" && !(nd.title == "Introduction") &&
    !(nd.title == "Conclusion"))).length

/-- The sum of the target word counts of the H2 entries of an outline. -/
def h2WordSum (outline : List OutlineNode) : ℕ :=
  ((outline.filter (fun nd => nd.level == "h2")).map OutlineNode.target_words).sum

/-! ## Theorems -/

example : slugify "Top 10 Tips! (2024 Edition)" = "top-10-tips-2024-edition" := by decide

example : clamp "hello brave world" 11 = "hello" := by decide

example : clamp "abcdef" 3 = "abc" := by decide

example :
    (generate_outline "x" "y" 700).map OutlineNode.level =
      ["h2", "h2", "h3", "h2", "h2", "h2", "h2", "h2"] := by decide

example :
    ((generate_outline "x" "y" 1500).filter (fun nd => nd.level == "h2")).length = 8 := by
  decide

example :
    polish_sections (fun _ _ => none) [⟨"T", "h2", "One. Two!  Three"⟩] =
      [⟨"T", "h2", "One. Two!  Three"⟩,
       ⟨"Key Takeaways", "h3", "- One\n- Two\n- Three"⟩] := by decide

example : polish_sections (fun _ _ => none) [⟨"T", "h2", ""⟩] = [⟨"T", "h2", ""⟩] := by
  decide

example : chooseTag "Sales grew 12% this quarter" = "[stat]" := by decide

example : chooseTag "It was the best of times" = "[case]" := by decide

example : chooseTag "A practical toolkit" = "[tool]" := by decide

example : chooseTag "Report 2024" = "[stat]" := by decide

example : chooseTag "He said \"go\"" = "[quote]" := by decide

example : chooseTag "Top 3 ideas" = "[stat]" := by decide

example : chooseTag "12345% growth" = "[stat]" := by decide

example : chooseTag "no loose digits here" = "[case]" := by decide

example :
    build_tagged_evidence ⟨[⟨some "A", some "shows 3.5 uplift", none⟩,
        ⟨some "A", some "shows 3.5 uplift", none⟩, ⟨none, none, none⟩], [], []⟩ =
      ["[stat] A — shows 3.5 uplift"] := by decide

theorem isSlugChar_elim {c : Char} (h : isSlugChar c = true) :
    (97 ≤ c.toNat ∧ c.toNat ≤ 122) ∨ (48 ≤ c.toNat ∧ c.toNat ≤ 57) ∨ c.toNat = 45 := by
  simp only [isSlugChar, Bool.or_eq_true, Bool.and_eq_true, decide_eq_true_eq,
    beq_iff_eq] at h
  rcases h with (⟨h1, h2⟩ | h) | h
  · exact Or.inl ⟨h1, h2⟩
  · simp only [Char.isDigit, Bool.and_eq_true, decide_eq_true_eq] at h
    exact Or.inr (Or.inl ⟨h.1, h.2⟩)
  · subst h
    exact Or.inr (Or.inr rfl)

theorem char_toNat_45 {c : Char} (h : c.toNat = 45) : c = '-' := by
  have : c.val = '-'.val := by
    apply UInt32.toNat.inj
    simpa [Char.toNat] using h
  exact Char.eq_of_val_eq this

theorem char_toNat_95 {c : Char} (h : c.toNat = 95) : c = '_' := by
  have : c.val = '_'.val := by
    apply UInt32.toNat.inj
    simpa [Char.toNat] using h
  exact Char.eq_of_val_eq this

theorem isWS_elim {c : Char} (h : isWS c = true) :
    c.toNat = 32 ∨ c.toNat = 9 ∨ c.toNat = 13 ∨ c.toNat = 10 := by
  simp only [isWS, Char.isWhitespace, Bool.or_eq_true, decide_eq_true_eq] at h
  rcases h with ((rfl | rfl) | rfl) | rfl
  · exact Or.inl rfl
  · exact Or.inr (Or.inl rfl)
  · exact Or.inr (Or.inr (Or.inl rfl))
  · exact Or.inr (Or.inr (Or.inr rfl))

theorem slugChar_not_ws {c : Char} (h : isSlugChar c = true) : isWS c = false := by
  by_cases hw : isWS c = true
  · exfalso
    rcases isSlugChar_elim h with ⟨h1, h2⟩ | ⟨h1, h2⟩ | h1 <;>
      rcases isWS_elim hw with h3 | h3 | h3 | h3 <;> omega
  · simpa using hw

theorem slugChar_toLower {c : Char} (h : isSlugChar c = true) : c.toLower = c := by
  have hn : ¬(c.toNat ≥ 65 ∧ c.toNat ≤ 90) := by
    rcases isSlugChar_elim h with ⟨h1, h2⟩ | ⟨h1, h2⟩ | h1 <;> omega
  simp [Char.toLower, hn]

theorem slugChar_keep {c : Char} (h : isSlugChar c = true) : keepChar c = true := by
  simp only [isSlugChar, Bool.or_eq_true] at h
  simp only [keepChar, Bool.or_eq_true]
  tauto

theorem slugChar_sep {c : Char} (h : isSlugChar c = true) (hs : isSep c = true) :
    c = '-' := by
  simp only [isSep, Bool.or_eq_true, beq_iff_eq] at hs
  rcases hs with (hw | rfl) | rfl
  · exact absurd hw (by simp [slugChar_not_ws h])
  · exact absurd h (by decide)
  · rfl

theorem keep_not_sep_slug {c : Char} (hk : keepChar c = true) (hs : isSep c = false) :
    isSlugChar c = true ∧ c ≠ '-' := by
  simp only [isSep, Bool.or_eq_false_iff, beq_eq_false_iff_ne, ne_eq] at hs
  simp only [keepChar, Bool.or_eq_true] at hk
  constructor
  · simp only [isSlugChar, Bool.or_eq_true]
    rcases hk with ((h | h) | h) | h
    · exact Or.inl (Or.inl h)
    · exact Or.inl (Or.inr h)
    · exact absurd h (by simp [hs.1.1])
    · exact Or.inr h
  · intro rfl_h
    subst rfl_h
    exact hs.2 rfl

theorem hyphen_sep : isSep '-' = true := by decide

/-! ## `collapseSeps` lemmas -/

theorem collapseAux_cons_sep_true {c : Char} {rest : List Char} (hc : isSep c = true) :
    collapseAux true (c :: rest) = collapseAux true rest := by
  simp [collapseAux, hc]

theorem collapseAux_cons_sep_false {c : Char} {rest : List Char} (hc : isSep c = true) :
    collapseAux false (c :: rest) = '-' :: collapseAux true rest := by
  simp [collapseAux, hc]

theorem collapseAux_cons_nonsep {c : Char} {rest : List Char} {flag : Bool}
    (hc : isSep c = false) : collapseAux flag (c :: rest) = c :: collapseAux false rest := by
  cases flag <;> simp [collapseAux, hc]

theorem collapseAux_mem {c : Char} :
    ∀ (l : List Char) (flag : Bool), c ∈ collapseAux flag l →
      c = '-' ∨ (c ∈ l ∧ isSep c = false) := by
  intro l
  induction l with
  | nil => intro flag h; simp [collapseAux] at h
  | cons x rest ih =>
    intro flag h
    by_cases hx : isSep x = true
    · cases flag
      · rw [collapseAux_cons_sep_false hx] at h
        rcases List.mem_cons.mp h with rfl | h'
        · exact Or.inl rfl
        · rcases ih true h' with h2 | ⟨h2, h3⟩
          · exact Or.inl h2
          · exact Or.inr ⟨List.mem_cons_of_mem _ h2, h3⟩
      · rw [collapseAux_cons_sep_true hx] at h
        rcases ih true h with h2 | ⟨h2, h3⟩
        · exact Or.inl h2
        · exact Or.inr ⟨List.mem_cons_of_mem _ h2, h3⟩
    · rw [collapseAux_cons_nonsep (by simpa using hx)] at h
      rcases List.mem_cons.mp h with rfl | h'
      · exact Or.inr ⟨List.mem_cons_self _ _, by simpa using hx⟩
      · rcases ih false h' with h2 | ⟨h2, h3⟩
        · exact Or.inl h2
        · exact Or.inr ⟨List.mem_cons_of_mem _ h2, h3⟩

theorem collapseAux_head_true {h : Char} :
    ∀ l : List Char, (collapseAux true l).head? = some h → isSep h = false := by
  intro l
  induction l with
  | nil => intro hh; simp [collapseAux] at hh
  | cons x rest ih =>
    intro hh
    by_cases hx : isSep x = true
    · rw [collapseAux_cons_sep_true hx] at hh
      exact ih hh
    · rw [collapseAux_cons_nonsep (by simpa using hx)] at hh
      simp only [List.head?_cons, Option.some.injEq] at hh
      subst hh
      simpa using hx

theorem collapseAux_chain :
    ∀ (l : List Char) (flag : Bool),
      List.Chain' (fun a b => ¬(a = '-' ∧ b = '-')) (collapseAux flag l) := by
  intro l
  induction l with
  | nil => intro flag; simp [collapseAux]
  | cons x rest ih =>
    intro flag
    by_cases hx : isSep x = true
    · cases flag
      · rw [collapseAux_cons_sep_false hx]
        apply List.Chain'.cons' (ih true)
        intro y hy
        intro ⟨_, hy2⟩
        have hns := collapseAux_head_true rest hy
        rw [hy2] at hns
        exact absurd hyphen_sep (by simp [hns])
      · rw [collapseAux_cons_sep_true hx]
        exact ih true
    · rw [collapseAux_cons_nonsep (by simpa using hx)]
      apply List.Chain'.cons' (ih false)
      intro y hy
      intro ⟨hx2, _⟩
      rw [hx2] at hx
      exact absurd hyphen_sep (by simp [hx])

theorem collapseAux_fix :
    ∀ l : List Char, (∀ c ∈ l, isSep c = true → c = '-') → NoHH l →
      collapseAux false l = l ∧ (l.head? ≠ some '-' → collapseAux true l = l) := by
  intro l
  induction l with
  | nil => intro _ _; exact ⟨rfl, fun _ => rfl⟩
  | cons x rest ih =>
    intro hall hchain
    have hrest := ih (fun c hc => hall c (List.mem_cons_of_mem _ hc))
      (List.Chain'.tail hchain)
    by_cases hx : isSep x = true
    · have hx' : x = '-' := hall x (List.mem_cons_self _ _) hx
      subst hx'
      constructor
      · rw [collapseAux_cons_sep_false hyphen_sep]
        congr 1
        apply hrest.2
        intro hhd
        rcases hd : rest.head? with _ | y
        · rw [hd] at hhd; exact Option.noConfusion hhd
        · rw [hd] at hhd
          have hy : y = '-' := by simpa using hhd
          have hrel := List.Chain'.rel_head? hchain
            (show y ∈ rest.head? by rw [hd]; rfl)
          exact hrel ⟨rfl, hy⟩
      · intro hhd
        exact absurd (rfl : ('-' :: rest).head? = some '-') hhd
    · have hx' : isSep x = false := by simpa using hx
      constructor
      · rw [collapseAux_cons_nonsep hx', hrest.1]
      · intro _
        rw [collapseAux_cons_nonsep hx', hrest.1]

/-! ## `slugChars` invariants and idempotence -/

theorem slugChars_eq (l : List Char) :
    slugChars l =
      ((collapseSeps ((stripWS (l.map Char.toLower)).filter keepChar)).dropWhile
        (· == '-')).rdropWhile (· == '-') := rfl

theorem slugChars_mem {c : Char} {l : List Char} (h : c ∈ slugChars l) :
    isSlugChar c = true := by
  rw [slugChars_eq] at h
  have h3 := List.IsPrefix.subset ( List.rdropWhile_prefix _ _) h
  have h4 := List.IsSuffix.subset ( List.dropWhile_suffix _) h3
  rcases collapseAux_mem _ false h4 with rfl | ⟨h5, h6⟩
  · simp [isSlugChar]
  · have h7 := List.of_mem_filter h5
    exact (keep_not_sep_slug h7 h6).1

theorem slugChars_chain (l : List Char) : NoHH (slugChars l) := by
  have h1 := collapseAux_chain ((stripWS (l.map Char.toLower)).filter keepChar) false
  have h2 := List.Chain'.suffix h1 ( List.dropWhile_suffix (· == '-'))
  exact List.Chain'.prefix h2 ( List.rdropWhile_prefix _ _)

theorem head?_dropWhile {p : Char → Bool} {x : Char} :
    ∀ l : List Char, (l.dropWhile p).head? = some x → p x = false := by
  intro l
  induction l with
  | nil => intro h; simp [List.dropWhile] at h
  | cons c rest ih =>
    intro h
    by_cases hc : p c = true
    · rw [List.dropWhile_cons_of_pos hc] at h
      exact ih h
    · rw [List.dropWhile_cons_of_neg (by simpa using hc)] at h
      simp only [List.head?_cons, Option.some.injEq] at h
      subst h
      simpa using hc

theorem slugChars_head (l : List Char) : (slugChars l).head? ≠ some '-' := by
  intro h
  rcases hr : slugChars l with _ | ⟨x, xs⟩
  · rw [hr] at h
    exact Option.noConfusion h
  · rw [hr] at h
    have hx : x = '-' := by simpa using h
    have hpfx : slugChars l <+:
        (collapseSeps ((stripWS (l.map Char.toLower)).filter keepChar)).dropWhile
          (· == '-') := by
      rw [slugChars_eq]
      exact List.rdropWhile_prefix _ _
    rw [hr] at hpfx
    obtain ⟨t, ht⟩ := hpfx
    have hhd : ((collapseSeps ((stripWS (l.map Char.toLower)).filter keepChar)).dropWhile
        (· == '-')).head? = some x := by
      rw [← ht]
      rfl
    have hfalse := head?_dropWhile _ hhd
    rw [hx] at hfalse
    simp at hfalse

theorem slugChars_last (l : List Char) : (slugChars l).getLast? ≠ some '-' := by
  intro h
  have hne : slugChars l ≠ [] := by
    intro hnil
    rw [hnil] at h
    exact Option.noConfusion h
  have hlast : (slugChars l).getLast hne = '-' := by
    have h2 := List.getLast?_eq_getLast (slugChars l) hne
    rw [h] at h2
    exact (Option.some.inj h2).symm
  have hnot := List.rdropWhile_last_not (fun c => c == '-')
    ((collapseSeps ((stripWS (l.map Char.toLower)).filter keepChar)).dropWhile (· == '-'))
    hne
  apply hnot
  show ((slugChars l).getLast hne == '-') = true
  rw [hlast]
  rfl

theorem dropWhile_eq_self_of_head {p : Char → Bool} {l : List Char}
    (h : ∀ x, l.head? = some x → p x = false) : l.dropWhile p = l := by
  cases l with
  | nil => rfl
  | cons c rest =>
    rw [List.dropWhile_cons_of_neg]
    simp [h c rfl]

theorem slugChars_fix {y : List Char} (h1 : ∀ c ∈ y, isSlugChar c = true) (h2 : NoHH y)
    (h3 : y.head? ≠ some '-') (h4 : y.getLast? ≠ some '-') : slugChars y = y := by
  rw [slugChars_eq]
  have hmap : y.map Char.toLower = y := by
    have h5 := List.map_congr_left (fun a ha => slugChar_toLower (h1 a ha))
    simpa using h5
  rw [hmap]
  have hstrip : stripWS y = y := by
    rw [stripWS]
    have hdw : y.dropWhile isWS = y := by
      apply dropWhile_eq_self_of_head
      intro x hx
      exact slugChar_not_ws (h1 x (List.mem_of_mem_head? hx))
    rw [hdw, List.rdropWhile_eq_self_iff]
    intro hl
    exact fun hws => absurd hws
      (by simp [slugChar_not_ws (h1 _ (List.getLast_mem hl))])
  rw [hstrip]
  have hfil : y.filter keepChar = y :=
    List.filter_eq_self.mpr fun a ha => slugChar_keep (h1 a ha)
  rw [hfil]
  have hcol : collapseSeps y = y :=
    (collapseAux_fix y (fun c hc hs => slugChar_sep (h1 c hc) hs) h2).1
  rw [show collapseSeps y = collapseAux false y from rfl] at hcol
  rw [show collapseSeps y = collapseAux false y from rfl, hcol]
  have hdh : y.dropWhile (· == '-') = y := by
    apply dropWhile_eq_self_of_head
    intro x hx
    have hxy : x ≠ '-' := by
      intro hcontra
      subst hcontra
      exact h3 hx
    simpa using hxy
  rw [hdh, List.rdropWhile_eq_self_iff]
  intro hl hb
  apply h4
  rw [List.getLast?_eq_getLast y hl]
  exact congrArg some (by simpa using hb)

theorem slugChars_idem (l : List Char) : slugChars (slugChars l) = slugChars l :=
  slugChars_fix (fun _ hc => slugChars_mem hc) (slugChars_chain l) (slugChars_head l)
    (slugChars_last l)

/-- Claim C8: `slugify` is idempotent — `slugify (slugify x) = slugify x` for
every string `x` — and its output contains only lowercase ASCII letters,
digits and single (non-consecutive) hyphens, with no leading or trailing
hyphen; in particular
`slugify "Top 10 Tips! (2024 Edition)" = "top-10-tips-2024-edition"`. -/
theorem slugify_idempotent_charset :
    (∀ x : String,
        slugify (slugify x) = slugify x ∧
        (∀ c ∈ (slugify x).data,
            ('a' ≤ c ∧ c ≤ 'z') ∨ ('0' ≤ c ∧ c ≤ '9') ∨ c = '-') ∧
        List.Chain' (fun a b => ¬(a = '-' ∧ b = '-')) (slugify x).data ∧
        (slugify x).data.head? ≠ some '-' ∧
        (slugify x).data.getLast? ≠ some '-') ∧
      slugify "Top 10 Tips! (2024 Edition)" = "top-10-tips-2024-edition" := by
  constructor
  · intro x
    refine ⟨?_, ?_, slugChars_chain _, slugChars_head _, slugChars_last _⟩
    · show (⟨slugChars (slugChars x.data)⟩ : String) = ⟨slugChars x.data⟩
      rw [slugChars_idem]
    · intro c hc
      rcases isSlugChar_elim (slugChars_mem hc) with ⟨h1, h2⟩ | ⟨h1, h2⟩ | h1
      · exact Or.inl ⟨h1, h2⟩
      · exact Or.inr (Or.inl ⟨h1, h2⟩)
      · exact Or.inr (Or.inr (char_toNat_45 h1))
  · decide

/-- Witness for C8: the theorem applied at a concrete string and character,
discharging the membership hypothesis. -/
theorem slugify_idempotent_charset_witness :
    ('a' ≤ 't' ∧ 't' ≤ 'z') ∨ ('0' ≤ 't' ∧ 't' ≤ '9') ∨ 't' = '-' :=
  (slugify_idempotent_charset.1 "Top Tips").2.1 't' (by decide)

theorem rfindSpace_some {i : ℕ} :
    ∀ l : List Char, rfindSpace l = some i → i < l.length ∧ l.getD i 'x' = ' ' := by
  induction i with
  | zero =>
    intro l h
    cases l with
    | nil => simp [rfindSpace] at h
    | cons c rest =>
      rw [rfindSpace] at h
      rcases hr : rfindSpace rest with _ | j <;> simp only [hr] at h
      · split at h
        · next hc => exact ⟨by simp, by simpa using hc⟩
        · exact Option.noConfusion h
      · exact absurd (Option.some.inj h) (by omega)
  | succ k ih =>
    intro l h
    cases l with
    | nil => simp [rfindSpace] at h
    | cons c rest =>
      rw [rfindSpace] at h
      rcases hr : rfindSpace rest with _ | j <;> simp only [hr] at h
      · split at h
        · exact absurd (Option.some.inj h) (by omega)
        · exact Option.noConfusion h
      · have hjk : j = k := by
          have := Option.some.inj h
          omega
        subst hjk
        obtain ⟨h1, h2⟩ := ih rest hr
        constructor
        · simp only [List.length_cons]
          omega
        · simpa using h2

theorem rfindSpace_none :
    ∀ l : List Char, rfindSpace l = none → ∀ c ∈ l, c ≠ ' ' := by
  intro l
  induction l with
  | nil => intro _ c hc; simp at hc
  | cons x rest ih =>
    intro h c hc
    rw [rfindSpace] at h
    rcases hr : rfindSpace rest with _ | j <;> simp only [hr] at h
    · split at h
      · exact Option.noConfusion h
      · next hx =>
        rcases List.mem_cons.mp hc with rfl | hc'
        · exact hx
        · exact ih hr c hc'
    · exact Option.noConfusion h

theorem takeWhile_ge (q : Char → Bool) :
    ∀ (cs : List Char) (m : ℕ), m ≤ cs.length →
      (∀ i, i < m → q (cs.getD i 'x') = true) → m ≤ (cs.takeWhile q).length := by
  intro cs
  induction cs with
  | nil => intro m hm _; simpa using hm
  | cons c rest ih =>
    intro m hm h
    cases m with
    | zero => omega
    | succ k =>
      have hc : q c = true := by simpa using h 0 (by omega)
      rw [List.takeWhile_cons_of_pos hc]
      simp only [List.length_cons]
      have := ih k (by simpa using hm)
        (fun i hi => by simpa using h (i + 1) (by omega))
      omega

theorem getD_take {cs : List Char} {n i : ℕ} (h : i < n) :
    (cs.take n).getD i 'x' = cs.getD i 'x' := by
  simp [List.getD_eq_getElem?_getD, List.getElem?_take, h]

theorem getD_append_length {α : Type} (l1 : List α) (c : α) (l2 : List α) (d : α) :
    (l1 ++ c :: l2).getD l1.length d = c := by
  induction l1 with
  | nil => rfl
  | cons a t ih => simpa using ih

theorem rdropWhile_append_rtake (p : Char → Bool) (l : List Char) :
    l.rdropWhile p ++ l.rtakeWhile p = l := by
  rw [List.rdropWhile, List.rtakeWhile, ← List.reverse_append,
    List.takeWhile_append_dropWhile, List.reverse_reverse]

theorem getD_mem_of_lt {cs : List Char} {i : ℕ} (h : i < cs.length) :
    cs.getD i 'x' ∈ cs := by
  rw [List.getD_eq_getElem _ _ h]
  exact List.getElem_mem h

theorem clampChars_spec (cs : List Char) (n : ℕ) (hn : 0 < n)
    (hsp : ∀ c ∈ cs, isWS c = true → c = ' ') :
    (clampChars cs n).length ≤ n ∧
    (clampChars cs n = cs ∨
     (∃ i, i < cs.length ∧ clampChars cs n = cs.take i ∧ cs.getD i 'x' = ' ') ∨
     (clampChars cs n = cs.take n ∧ n < (firstWord cs).length)) := by
  by_cases hlen : cs.length ≤ n
  · rw [clampChars, if_pos hlen]
    exact ⟨hlen, Or.inl rfl⟩
  · push_neg at hlen
    have hpfx : (cs.take n).rdropWhile isWS <+: cs.take n := List.rdropWhile_prefix _ _
    have htake_len : (cs.take n).length = n := by
      simp only [List.length_take]
      omega
    have hsl_len : ((cs.take n).rdropWhile isWS).length ≤ n := by
      have h1 := hpfx.length_le
      omega
    have hsl_eq := List.prefix_iff_eq_take.mp hpfx
    rw [List.take_take, min_eq_left hsl_len] at hsl_eq
    rcases hfind : rfindSpace ((cs.take n).rdropWhile isWS) with _ | i
    · rw [clampChars, if_neg (by omega)]
      simp only [hfind]
      by_cases hslen : ((cs.take n).rdropWhile isWS).length = n
      · have hsliced : (cs.take n).rdropWhile isWS = cs.take n := by
          rw [hsl_eq, hslen]
        have hnonws : ∀ i, i < n → isWS (cs.getD i 'x') = false := by
          intro i hi
          have h1 : (cs.take n).getD i 'x' = cs.getD i 'x' := getD_take hi
          have h2 : (cs.take n).getD i 'x' ∈ cs.take n :=
            getD_mem_of_lt (by omega)
          rw [h1] at h2
          by_cases hcw : isWS (cs.getD i 'x') = true
          · have h3 : cs.getD i 'x' = ' ' := hsp _ (List.take_subset _ _ h2) hcw
            rw [h3] at h2
            rw [← hsliced] at h2
            exact absurd rfl (rfindSpace_none _ hfind ' ' h2)
          · simpa using hcw
        refine ⟨by omega, ?_⟩
        by_cases hws : isWS (cs.getD n 'x') = true
        · right; left
          exact ⟨n, hlen, hsliced, hsp _ (getD_mem_of_lt hlen) hws⟩
        · right; right
          refine ⟨hsliced, ?_⟩
          have hdrop : cs.dropWhile isWS = cs := by
            apply dropWhile_eq_self_of_head
            intro x hx
            cases cs with
            | nil => simp at hx
            | cons c rest =>
              have hxc : x = c := by
                simp only [List.head?_cons, Option.some.injEq] at hx
                exact hx.symm
              subst hxc
              simpa using hnonws 0 hn
          rw [firstWord, hdrop]
          have hq : ∀ i, i < n + 1 → (!(isWS (cs.getD i 'x'))) = true := by
            intro i hi
            rw [Bool.not_eq_true']
            rcases Nat.lt_or_ge i n with h | h
            · exact hnonws i h
            · have hin : i = n := by omega
              subst hin
              simpa using hws
          have := takeWhile_ge (fun c => !(isWS c)) cs (n + 1) (by omega) hq
          omega
      · refine ⟨by omega, Or.inr (Or.inl ?_)⟩
        refine ⟨((cs.take n).rdropWhile isWS).length, by omega, hsl_eq, ?_⟩
        have hsplit := rdropWhile_append_rtake isWS (cs.take n)
        rcases hrt : (cs.take n).rtakeWhile isWS with _ | ⟨w, ws'⟩
        · exfalso
          rw [hrt, List.append_nil] at hsplit
          have := congrArg List.length hsplit
          omega
        · have hw_ws : isWS w = true :=
            List.mem_rtakeWhile_imp (by rw [hrt]; exact List.mem_cons_self _ _)
          have hw_mem : w ∈ cs := by
            apply List.take_subset n cs
            rw [← hsplit, hrt]
            exact List.mem_append_right _ (List.mem_cons_self _ _)
          have hw : w = ' ' := hsp w hw_mem hw_ws
          have hgd := getD_append_length ((cs.take n).rdropWhile isWS) w ws' 'x'
          rw [hrt] at hsplit
          rw [hsplit] at hgd
          rw [getD_take (by omega)] at hgd
          rw [hgd, hw]
    · rw [clampChars, if_neg (by omega)]
      simp only [hfind]
      obtain ⟨hi_lt, hi_sp⟩ := rfindSpace_some _ hfind
      have hres : ((cs.take n).rdropWhile isWS).take i = cs.take i := by
        conv_lhs => rw [hsl_eq]
        rw [List.take_take]
        congr 1
        omega
      refine ⟨?_, Or.inr (Or.inl ⟨i, by omega, hres, ?_⟩)⟩
      · rw [hres]
        simp only [List.length_take]
        omega
      · rw [hsl_eq, getD_take (by omega)] at hi_sp
        exact hi_sp

/-- Claim C9 (amended): for every positive `n` and every text whose whitespace
characters are all plain spaces, `clamp text n` has length at most `n` and
either returns the whole text, or a prefix of it cut immediately before a
space of the input (so never mid-word), or the hard cut `take n` — the latter
only when the first (whitespace-delimited) word of the input is longer than
`n` characters.  (The unamended claim, over texts with tabs or newlines, is
refuted by `clamp_mid_word_counterexample` below: `rfind(" ")` only searches
for plain spaces.) -/
theorem clamp_length_word_boundary (text : String) (n : ℕ) (hn : 0 < n)
    (hsp : ∀ c ∈ text.data, isWS c = true → c = ' ') :
    (clamp text n).length ≤ n ∧
    (clamp text n = text ∨
     (∃ i, i < text.data.length ∧ (clamp text n).data = text.data.take i ∧
        text.data.getD i 'x' = ' ') ∨
     ((clamp text n).data = text.data.take n ∧ n < (firstWord text.data).length)) := by
  obtain ⟨h1, h2⟩ := clampChars_spec text.data n hn hsp
  refine ⟨h1, ?_⟩
  rcases h2 with h | ⟨i, hi, hh, hs⟩ | ⟨hh, hf⟩
  · left
    show (⟨clampChars text.data n⟩ : String) = text
    rw [h]
  · exact Or.inr (Or.inl ⟨i, hi, hh, hs⟩)
  · exact Or.inr (Or.inr ⟨hh, hf⟩)

/-- Witness for C9 (amended): the theorem applied at a concrete text and
limit, both hypotheses discharged by computation. -/
theorem clamp_length_word_boundary_witness :
    (clamp "hello brave world" 11).length ≤ 11 ∧
    (clamp "hello brave world" 11 = "hello brave world" ∨
     (∃ i, i < ("hello brave world" : String).data.length ∧
        (clamp "hello brave world" 11).data = ("hello brave world" : String).data.take i ∧
        ("hello brave world" : String).data.getD i 'x' = ' ') ∨
     ((clamp "hello brave world" 11).data = ("hello brave world" : String).data.take 11 ∧
       11 < (firstWord ("hello brave world" : String).data).length)) :=
  clamp_length_word_boundary "hello brave world" 11 (by decide) (by decide)

/-- Counterexample for C9 as stated: on `"a\tbcdef"` with `n = 4` (whitespace
that is not a plain space), `clamp` returns `"a\tbc"`, which ends in the
middle of the word `"bcdef"` even though the first word of the input (`"a"`)
does not exceed `n`: the result is neither the whole text, nor a prefix cut
before a space, nor a permitted hard cut (the first word has length 1 < 4). -/
theorem clamp_mid_word_counterexample :
    ¬(clamp "a\tbcdef" 4 = "a\tbcdef" ∨
      (∃ i, i < ("a\tbcdef" : String).data.length ∧
         (clamp "a\tbcdef" 4).data = ("a\tbcdef" : String).data.take i ∧
         ("a\tbcdef" : String).data.getD i 'x' = ' ') ∨
      ((clamp "a\tbcdef" 4).data = ("a\tbcdef" : String).data.take 4 ∧
        4 < (firstWord ("a\tbcdef" : String).data).length)) := by
  intro h
  rcases h with h | ⟨i, hi, h1, h2⟩ | ⟨h1, h2⟩
  · exact absurd h (by decide)
  · have hi7 : i < 7 := by simpa using hi
    interval_cases i <;> revert h1 h2 <;> decide
  · exact absurd h2 (by decide)

/-- Claim C3: `micro_refine_article` is atomic on failure — if the service
response does not parse as JSON (`response = none`), or the parsed value is
not an object (so `data.get` raises, landing in the same `except`), or the
effective `metadata` is not an object, or the effective `sections` is not a
list, the function returns exactly the input `(metadata, sections)`; a
replacement pair is returned only when the response parses as an object and
both shape checks pass. -/
theorem micro_refine_article_atomic (heading : String) (metadata sections : JValue)
    (audience : Option String) (response : Option JValue) :
    (response = none →
      micro_refine_article heading metadata sections audience response =
        (metadata, sections)) ∧
    (∀ d, response = some d → (∀ fields, d ≠ JValue.obj fields) →
      micro_refine_article heading metadata sections audience response =
        (metadata, sections)) ∧
    (∀ fields, response = some (JValue.obj fields) →
      (((jlookup "metadata" fields).getD metadata).isObj = false ∨
        ((jlookup "sections" fields).getD sections).isArr = false) →
      micro_refine_article heading metadata sections audience response =
        (metadata, sections)) ∧
    (micro_refine_article heading metadata sections audience response ≠
        (metadata, sections) →
      ∃ fields, response = some (JValue.obj fields) ∧
        (micro_refine_article heading metadata sections audience response).1.isObj =
          true ∧
        (micro_refine_article heading metadata sections audience response).2.isArr =
          true) := by
  refine ⟨?_, ?_, ?_, ?_⟩
  · intro h
    subst h
    rfl
  · intro d h hno
    subst h
    cases d with
    | obj fields => exact absurd rfl (hno fields)
    | null => rfl
    | bool b => rfl
    | num q => rfl
    | str s => rfl
    | arr xs => rfl
  · intro fields h hor
    subst h
    rcases hor with h | h <;>
      simp [micro_refine_article, h]
  · intro hne
    cases response with
    | none => exact absurd rfl hne
    | some d =>
      cases d with
      | obj fields =>
        by_cases hc : (((jlookup "metadata" fields).getD metadata).isObj &&
            ((jlookup "sections" fields).getD sections).isArr) = true
        · refine ⟨fields, rfl, ?_, ?_⟩ <;>
            simp only [micro_refine_article, hc, if_true] <;>
            simp only [Bool.and_eq_true] at hc
          · exact hc.1
          · exact hc.2
        · exfalso
          apply hne
          rw [Bool.not_eq_true] at hc
          simp [micro_refine_article, hc]
      | null => exact absurd rfl hne
      | bool b => exact absurd rfl hne
      | num q => exact absurd rfl hne
      | str s => exact absurd rfl hne
      | arr xs => exact absurd rfl hne

/-- Witness for C3: a non-parsing response leaves a concrete article
unchanged. -/
theorem micro_refine_article_atomic_witness :
    micro_refine_article "H" (JValue.obj []) (JValue.arr []) none none =
      (JValue.obj [], JValue.arr []) :=
  (micro_refine_article_atomic "H" (JValue.obj []) (JValue.arr []) none none).1 rfl

/-! ## Dedupe loop lemmas -/

theorem dedupeGo_length (sim : String → String → ℚ) (svc : String → Option String)
    (threshold : ℚ) :
    ∀ (l keep : List Sec),
      (dedupeGo sim svc threshold keep l).length = keep.length + l.length := by
  intro l
  induction l with
  | nil => intro keep; simp [dedupeGo]
  | cons x xs ih =>
    intro keep
    rw [dedupeGo, ih]
    simp only [List.length_append, List.length_cons, List.length_nil]
    omega

theorem dedupeGo_keep_prefix (sim : String → String → ℚ) (svc : String → Option String)
    (threshold : ℚ) :
    ∀ (l keep : List Sec), ∃ s, dedupeGo sim svc threshold keep l = keep ++ s := by
  intro l
  induction l with
  | nil => intro keep; exact ⟨[], by simp [dedupeGo]⟩
  | cons x xs ih =>
    intro keep
    obtain ⟨s, hs⟩ := ih (keep ++ [dedupeStep sim svc threshold keep x])
    rw [dedupeGo, hs, List.append_assoc]
    exact ⟨_, rfl⟩

theorem dedupeGo_take (sim : String → String → ℚ) (svc : String → Option String)
    (threshold : ℚ) (l keep : List Sec) (k : ℕ) (hk : k ≤ keep.length) :
    (dedupeGo sim svc threshold keep l).take k = keep.take k := by
  obtain ⟨s, hs⟩ := dedupeGo_keep_prefix sim svc threshold l keep
  rw [hs, List.take_append_of_le_length hk]

theorem dedupeGo_getD_lt (sim : String → String → ℚ) (svc : String → Option String)
    (threshold : ℚ) (l keep : List Sec) (j : ℕ) (hj : j < keep.length) :
    (dedupeGo sim svc threshold keep l).getD j default = keep.getD j default := by
  obtain ⟨s, hs⟩ := dedupeGo_keep_prefix sim svc threshold l keep
  rw [hs, List.getD_append _ _ _ _ hj]

theorem dedupeGo_append (sim : String → String → ℚ) (svc : String → Option String)
    (threshold : ℚ) :
    ∀ (l1 l2 keep : List Sec),
      dedupeGo sim svc threshold keep (l1 ++ l2) =
        dedupeGo sim svc threshold (dedupeGo sim svc threshold keep l1) l2 := by
  intro l1
  induction l1 with
  | nil => intro l2 keep; simp [dedupeGo]
  | cons x xs ih =>
    intro l2 keep
    rw [List.cons_append, dedupeGo, ih, dedupeGo]

theorem dedupeStep_title (sim : String → String → ℚ) (svc : String → Option String)
    (threshold : ℚ) (keep : List Sec) (x : Sec) :
    (dedupeStep sim svc threshold keep x).title = x.title ∧
    (dedupeStep sim svc threshold keep x).level = x.level := by
  rw [dedupeStep]
  cases keep.find? (fun kept => decide (threshold ≤ sim x.text kept.text)) <;>
    exact ⟨rfl, rfl⟩

theorem dedupeGo_getD (sim : String → String → ℚ) (svc : String → Option String)
    (threshold : ℚ) :
    ∀ (l keep : List Sec) (i : ℕ), i < l.length →
      (dedupeGo sim svc threshold keep l).getD (keep.length + i) default =
        dedupeStep sim svc threshold
          ((dedupeGo sim svc threshold keep l).take (keep.length + i))
          (l.getD i default) := by
  intro l
  induction l with
  | nil => intro keep i hi; simp at hi
  | cons x xs ih =>
    intro keep i hi
    cases i with
    | zero =>
      rw [dedupeGo]
      have h1 : (dedupeGo sim svc threshold
            (keep ++ [dedupeStep sim svc threshold keep x]) xs).getD
            (keep.length + 0) default =
          (keep ++ [dedupeStep sim svc threshold keep x]).getD keep.length default := by
        apply dedupeGo_getD_lt
        simp
      rw [h1, getD_append_length]
      have h2 : (dedupeGo sim svc threshold
            (keep ++ [dedupeStep sim svc threshold keep x]) xs).take
            (keep.length + 0) = keep := by
        rw [Nat.add_zero, dedupeGo_take sim svc threshold xs _ keep.length (by simp),
          List.take_append_of_le_length (Nat.le_refl _), List.take_length]
      rw [h2]
      rfl
    | succ j =>
      rw [dedupeGo]
      have harith : keep.length + (j + 1) =
          (keep ++ [dedupeStep sim svc threshold keep x]).length + j := by
        simp
        omega
      rw [harith, ih _ j (by simpa using hi)]
      rfl

/-- Claim C2: `dedupe_and_paraphrase_sections` returns a list of exactly the
same length, with each position's `title` and `level` unchanged, and any
section whose similarity with every previously-kept section is strictly below
the threshold is returned byte-identical (text included). -/
theorem dedupe_shape_and_below_threshold (sim : String → String → ℚ)
    (svc : String → Option String) (threshold : ℚ) (sections : List Sec) :
    (dedupe_and_paraphrase_sections sim svc threshold sections).length =
        sections.length ∧
    ∀ i, i < sections.length →
      ((dedupe_and_paraphrase_sections sim svc threshold sections).getD i
            default).title = (sections.getD i default).title ∧
      ((dedupe_and_paraphrase_sections sim svc threshold sections).getD i
            default).level = (sections.getD i default).level ∧
      ((∀ j, j < i →
          sim (sections.getD i default).text
            (((dedupe_and_paraphrase_sections sim svc threshold sections).getD j
                default).text) < threshold) →
        (dedupe_and_paraphrase_sections sim svc threshold sections).getD i default =
          sections.getD i default) := by
  constructor
  · rw [dedupe_and_paraphrase_sections, dedupeGo_length]
    simp
  · intro i hi
    have hmain := dedupeGo_getD sim svc threshold sections [] i hi
    simp only [List.length_nil, Nat.zero_add] at hmain
    rw [dedupe_and_paraphrase_sections] at *
    rw [hmain]
    refine ⟨(dedupeStep_title _ _ _ _ _).1, (dedupeStep_title _ _ _ _ _).2, ?_⟩
    intro hbelow
    rw [dedupeStep]
    have hnone : ((dedupeGo sim svc threshold [] sections).take i).find?
        (fun kept =>
          decide (threshold ≤ sim (sections.getD i default).text kept.text)) = none := by
      rw [List.find?_eq_none]
      intro k hk
      rw [List.mem_iff_getElem] at hk
      obtain ⟨j, hj, hjk⟩ := hk
      have hjlen : j < i := by
        have := List.length_take_le i (dedupeGo sim svc threshold [] sections)
        omega
      have hjget : ((dedupeGo sim svc threshold [] sections).take i).getD j default =
          k := by
        rw [List.getD_eq_getElem _ _ hj, hjk]
      have hjfull : (dedupeGo sim svc threshold [] sections).getD j default = k := by
        rw [← hjget]
        have hjlt : j < (dedupeGo sim svc threshold [] sections).length := by
          rw [dedupeGo_length]
          simp only [List.length_nil, Nat.zero_add]
          omega
        rw [List.getD_eq_getElem _ _ hj, List.getD_eq_getElem _ _ hjlt,
          List.getElem_take]
      have hlt := hbelow j hjlen
      rw [hjfull] at hlt
      simp only [decide_eq_true_eq]
      exact not_le.mpr hlt
    rw [hnone]

theorem find?_append_none {p : Sec → Bool} :
    ∀ (K1 rest : List Sec), (∀ x ∈ K1, p x = false) →
      (K1 ++ rest).find? p = rest.find? p := by
  intro K1
  induction K1 with
  | nil => intro rest _; rfl
  | cons a t ih =>
    intro rest h
    rw [List.cons_append, List.find?_cons_of_neg _ (by simp [h a (List.mem_cons_self a t)])]
    exact ih rest fun x hx => h x (List.mem_cons_of_mem _ hx)

/-- Claim C1: when the kept list built from the sections before `s` decomposes
as `K1 ++ km :: K2` with every member of `K1` strictly below the threshold
and `km` at or above it, the scan for `s` resolves at `km` — regardless of
`K2` (the scan stops at the first match) — and `s` is appended with its text
replaced by the paraphrase result exactly once (no re-check after
paraphrasing: the stored text is `paraphrase_text svc s.text`, never a second
application); the earlier kept sections, the matching `km` included, appear
unaltered; and whenever the paraphrase output differs from the stale original
text, so does the stored text. -/
theorem dedupe_first_match_paraphrase (sim : String → String → ℚ)
    (svc : String → Option String) (threshold : ℚ) (pre : List Sec) (s : Sec)
    (post : List Sec) (K1 : List Sec) (km : Sec) (K2 : List Sec)
    (hK : dedupe_and_paraphrase_sections sim svc threshold pre = K1 ++ km :: K2)
    (h1 : ∀ k ∈ K1, sim s.text k.text < threshold)
    (hm : threshold ≤ sim s.text km.text) :
    (dedupe_and_paraphrase_sections sim svc threshold (pre ++ s :: post)).take
        pre.length = K1 ++ km :: K2 ∧
    (dedupe_and_paraphrase_sections sim svc threshold (pre ++ s :: post)).getD
        pre.length default = ⟨s.title, s.level, paraphrase_text svc s.text⟩ ∧
    (paraphrase_text svc s.text ≠ s.text →
      ((dedupe_and_paraphrase_sections sim svc threshold (pre ++ s :: post)).getD
          pre.length default).text ≠ s.text) := by
  have hprelen : pre.length = (K1 ++ km :: K2).length := by
    have h0 := dedupeGo_length sim svc threshold pre []
    rw [← dedupe_and_paraphrase_sections, hK] at h0
    simpa using h0.symm
  have hsplit : dedupe_and_paraphrase_sections sim svc threshold (pre ++ s :: post) =
      dedupeGo sim svc threshold
        ((K1 ++ km :: K2) ++ [dedupeStep sim svc threshold (K1 ++ km :: K2) s]) post := by
    rw [dedupe_and_paraphrase_sections, dedupeGo_append, ← dedupe_and_paraphrase_sections,
      hK, dedupeGo]
  have hstep : dedupeStep sim svc threshold (K1 ++ km :: K2) s =
      ⟨s.title, s.level, paraphrase_text svc s.text⟩ := by
    rw [dedupeStep, find?_append_none K1 (km :: K2)
        (fun x hx => by simp [not_le.mpr (h1 x hx)]),
      List.find?_cons_of_pos _ (by simp [hm])]
  refine ⟨?_, ?_, ?_⟩
  · rw [hsplit, hprelen,
      dedupeGo_take sim svc threshold post _ _ (by simp),
      List.take_append_of_le_length (Nat.le_refl _), List.take_length]
  · rw [hsplit, hprelen, dedupeGo_getD_lt sim svc threshold post _ _ (by simp),
      hstep, getD_append_length]
  · intro hp
    rw [hsplit, hprelen, dedupeGo_getD_lt sim svc threshold post _ _ (by simp),
      hstep, getD_append_length]
    exact hp

/-- Witness for C1: with a similarity oracle that scores identical texts `1`
and distinct texts `0`, a paraphrase oracle appending `"!"`, and threshold
`1`, the second of two identical-text sections comes back with its text
replaced and different from the original. -/
theorem dedupe_first_match_paraphrase_witness :
    ((dedupe_and_paraphrase_sections (fun a b => if a = b then (1 : ℚ) else 0)
        (fun x => some (x ++ "!")) 1
        [⟨"A", "h2", "hello"⟩, ⟨"B", "h2", "hello"⟩]).getD 1 default).text ≠
      "hello" :=
  (dedupe_first_match_paraphrase (fun a b => if a = b then (1 : ℚ) else 0)
      (fun x => some (x ++ "!")) 1 [⟨"A", "h2", "hello"⟩] ⟨"B", "h2", "hello"⟩
      [] [] ⟨"A", "h2", "hello"⟩ [] (by decide)
      (by intro k hk; simp at hk) (by decide)).2.2 (by decide)

/-- Witness for C2: a section whose similarity with the earlier kept section
is below the threshold is returned byte-identical. -/
theorem dedupe_shape_and_below_threshold_witness :
    (dedupe_and_paraphrase_sections (fun a b => if a = b then (1 : ℚ) else 0)
        (fun x => some (x ++ "!")) 1
        [⟨"A", "h2", "alpha"⟩, ⟨"B", "h2", "beta"⟩]).getD 1 default =
      ⟨"B", "h2", "beta"⟩ :=
  ((dedupe_shape_and_below_threshold (fun a b => if a = b then (1 : ℚ) else 0)
      (fun x => some (x ++ "!")) 1
      [⟨"A", "h2", "alpha"⟩, ⟨"B", "h2", "beta"⟩]).2 1 (by decide)).2.2
    (by intro j hj; interval_cases j; decide)

/-! ## Polish (C6) -/

/-- Claim C6 (amended): for an H2 section whose takeaway-synthesis call fails
(`svc … = none`), provided the sentence-split fallback on the marker-stripped
text yields at least one non-empty sentence, a `"Key Takeaways"` H3 section is
inserted immediately after the (cleaned) parent H2, its bullets being the
first up-to-5 non-empty sentences of the split; the failure is absorbed (the
function is total and the surrounding sections are processed as usual).  When
the fallback yields no sentences, no H3 is inserted — this is the one point
where the unamended claim fails (see the counterexample). -/
theorem polish_sections_fallback (svc : String → String → Option String)
    (pre post : List Sec) (s : Sec) (hlvl : s.level = "h2")
    (hfail : svc s.title (strip_markdown_headings s.text) = none)
    (hsome : fallback_takeaways (strip_markdown_headings s.text) ≠ []) :
    polish_sections svc (pre ++ s :: post) =
      polish_sections svc pre ++
        ⟨s.title, s.level, strip_markdown_headings s.text⟩ ::
        ⟨"Key Takeaways", "h3",
          String.intercalate "\n"
            ((fallback_takeaways (strip_markdown_headings s.text)).map
              (fun b => "- " ++ b))⟩ ::
        polish_sections svc post := by
  rw [polish_sections, List.flatMap_append, List.flatMap_cons,
    ← polish_sections, ← polish_sections]
  congr 1
  have hsum : summarize_key_takeaways svc s.title (strip_markdown_headings s.text) =
      fallback_takeaways (strip_markdown_headings s.text) := by
    rw [summarize_key_takeaways, hfail]
  have hemp : (fallback_takeaways (strip_markdown_headings s.text)).isEmpty =
      false := by
    rcases h : fallback_takeaways (strip_markdown_headings s.text) with _ | ⟨b, bs⟩
    · exact absurd h hsome
    · rfl
  simp only [hlvl, beq_self_eq_true, if_true, hsum, hemp, Bool.false_eq_true,
    if_false]
  rfl

/-- Witness for C6 (amended): a concrete two-sentence H2 section, a failing
synthesis service. -/
theorem polish_sections_fallback_witness :
    polish_sections (fun _ _ => none) ([] ++ ⟨"T", "h2", "One. Two."⟩ :: []) =
      polish_sections (fun _ _ => none) [] ++
        ⟨"T", "h2", strip_markdown_headings "One. Two."⟩ ::
        ⟨"Key Takeaways", "h3",
          String.intercalate "\n"
            ((fallback_takeaways (strip_markdown_headings "One. Two.")).map
              (fun b => "- " ++ b))⟩ ::
        polish_sections (fun _ _ => none) [] :=
  polish_sections_fallback (fun _ _ => none) [] [] ⟨"T", "h2", "One. Two."⟩ rfl rfl
    (by decide)

/-- Counterexample for C6 as stated: an H2 section with empty text whose
synthesis call fails produces no `"Key Takeaways"` H3 at all — the claim's
unconditional "a Key Takeaways H3 section is still produced" is false when
the sentence split yields no non-empty sentence. -/
theorem polish_sections_no_h3_counterexample :
    polish_sections (fun _ _ => none) [⟨"T", "h2", ""⟩] = [⟨"T", "h2", ""⟩] ∧
    ¬∃ sec ∈ polish_sections (fun _ _ => none) [⟨"T", "h2", ""⟩],
        sec.level = "h3" := by
  constructor
  · decide
  · decide

/-! ## Evidence curation (C7) -/

theorem pyDedupGo_sublist : ∀ (l seen : List String), List.Sublist (pyDedupGo seen l) l := by
  intro l
  induction l with
  | nil => intro seen; simp [pyDedupGo]
  | cons x xs ih =>
    intro seen
    rw [pyDedupGo]
    split
    · exact (ih seen).trans (List.sublist_cons_self x xs)
    · exact List.Sublist.cons₂ x (ih (x :: seen))

theorem pyDedupGo_not_seen :
    ∀ (l seen : List String) (x : String), x ∈ pyDedupGo seen l → x ∉ seen := by
  intro l
  induction l with
  | nil => intro seen x hx; simp [pyDedupGo] at hx
  | cons a xs ih =>
    intro seen x hx
    rw [pyDedupGo] at hx
    split at hx
    · exact ih seen x hx
    · next ha =>
      rcases List.mem_cons.mp hx with rfl | hx'
      · exact ha
      · intro hseen
        exact ih (a :: seen) x hx' (List.mem_cons_of_mem _ hseen)

theorem pyDedupGo_nodup : ∀ (l seen : List String), (pyDedupGo seen l).Nodup := by
  intro l
  induction l with
  | nil => intro seen; simp [pyDedupGo]
  | cons a xs ih =>
    intro seen
    rw [pyDedupGo]
    split
    · exact ih seen
    · refine List.Nodup.cons ?_ (ih (a :: seen))
      intro hmem
      exact pyDedupGo_not_seen xs (a :: seen) a hmem (List.mem_cons_self _ _)

theorem pyDedupGo_mem :
    ∀ (l seen : List String) (x : String), x ∈ l → x ∉ seen →
      x ∈ pyDedupGo seen l := by
  intro l
  induction l with
  | nil => intro seen x hx _; simp at hx
  | cons a xs ih =>
    intro seen x hx hseen
    rw [pyDedupGo]
    split
    · next ha =>
      rcases List.mem_cons.mp hx with rfl | hx'
      · exact absurd ha hseen
      · exact ih seen x hx' hseen
    · next ha =>
      rcases List.mem_cons.mp hx with rfl | hx'
      · exact List.mem_cons_self _ _
      · by_cases hxa : x = a
        · subst hxa
          exact List.mem_cons_self _ _
        · exact List.mem_cons_of_mem _
            (ih (a :: seen) x hx' (by simp [hxa, hseen]))

theorem pyDedupGo_pairwise :
    ∀ (l seen : List String),
      (pyDedupGo seen l).Pairwise (fun a b => l.indexOf a < l.indexOf b) := by
  intro l
  induction l with
  | nil => intro seen; simp [pyDedupGo]
  | cons x xs ih =>
    intro seen
    rw [pyDedupGo]
    split
    · next hxseen =>
      apply List.Pairwise.imp_of_mem ?_ (ih seen)
      intro a b ha hb hab
      have hax : x ≠ a := by
        intro h
        subst h
        exact pyDedupGo_not_seen xs seen x ha hxseen
      have hbx : x ≠ b := by
        intro h
        subst h
        exact pyDedupGo_not_seen xs seen x hb hxseen
      rw [List.indexOf_cons_ne xs hax, List.indexOf_cons_ne xs hbx]
      omega
    · next hxseen =>
      refine List.Pairwise.cons ?_ ?_
      · intro b hb
        have hbx : x ≠ b := by
          intro h
          exact pyDedupGo_not_seen xs (x :: seen) b hb (h ▸ List.mem_cons_self x seen)
        rw [List.indexOf_cons_self, List.indexOf_cons_ne xs hbx]
        omega
      · apply List.Pairwise.imp_of_mem ?_ (ih (x :: seen))
        intro a b ha hb hab
        have hax : x ≠ a := by
          intro h
          exact pyDedupGo_not_seen xs (x :: seen) a ha (h ▸ List.mem_cons_self x seen)
        have hbx : x ≠ b := by
          intro h
          exact pyDedupGo_not_seen xs (x :: seen) b hb (h ▸ List.mem_cons_self x seen)
        rw [List.indexOf_cons_ne xs hax, List.indexOf_cons_ne xs hbx]
        omega

/-- Claim C7: `build_tagged_evidence` returns at most 12 items, de-duplicated
by exact rendered string with first-seen order preserved (the output is a
duplicate-free sublist of the rendered item list, ordered by first
occurrence, and nothing is dropped except by de-duplication and the final
truncation to 12); each item is a tag followed by the rendered source text,
the tag assigned by first-match priority: `stat` on a percentage / 4-digit
year / decimal number; else `quote` on quotation marks; else `case` on
"case study"/"case"/"example" (case-insensitive); else `tool` on
"tool"/"platform"/"software"/"suite"; else `stat` on any standalone digit
run, otherwise `case`. -/
theorem build_tagged_evidence_spec (research : ResearchBundle) :
    (build_tagged_evidence research).length ≤ 12 ∧
    (build_tagged_evidence research).Nodup ∧
    List.Sublist (build_tagged_evidence research) (evidence_items research) ∧
    (build_tagged_evidence research).Pairwise
      (fun a b =>
        (evidence_items research).indexOf a < (evidence_items research).indexOf b) ∧
    ((pyDedup (evidence_items research)).length ≤ 12 →
      ∀ e ∈ evidence_items research, e ∈ build_tagged_evidence research) ∧
    (∀ e ∈ build_tagged_evidence research,
      ∃ s ∈ research.sources.take 12,
        renderSource s ≠ "" ∧
        e = chooseTag (renderSource s) ++ " " ++ renderSource s) ∧
    (∀ text : String,
      (statPattern text = true → chooseTag text = "[stat]") ∧
      (statPattern text = false → quotePattern text = true →
        chooseTag text = "[quote]") ∧
      (statPattern text = false → quotePattern text = false →
        containsAnyLower text ["case study", "case", "example"] = true →
        chooseTag text = "[case]") ∧
      (statPattern text = false → quotePattern text = false →
        containsAnyLower text ["case study", "case", "example"] = false →
        containsAnyLower text ["tool", "platform", "software", "suite"] = true →
        chooseTag text = "[tool]") ∧
      (statPattern text = false → quotePattern text = false →
        containsAnyLower text ["case study", "case", "example"] = false →
        containsAnyLower text ["tool", "platform", "software", "suite"] = false →
        (hasBareNumber text.data = true → chooseTag text = "[stat]") ∧
        (hasBareNumber text.data = false → chooseTag text = "[case]"))) := by
  refine ⟨List.length_take_le _ _, ?_, ?_, ?_, ?_, ?_, ?_⟩
  · exact (pyDedupGo_nodup _ []).sublist (List.take_sublist _ _)
  · exact (List.take_sublist _ _).trans (pyDedupGo_sublist _ [])
  · exact (pyDedupGo_pairwise _ []).sublist (List.take_sublist _ _)
  · intro hlen e he
    rw [build_tagged_evidence, List.take_of_length_le hlen]
    exact pyDedupGo_mem _ [] e he (by simp)
  · intro e he
    have h1 : e ∈ evidence_items research :=
      ((List.take_sublist _ _).trans (pyDedupGo_sublist _ [])).mem he
    rw [evidence_items, List.mem_filterMap] at h1
    obtain ⟨s, hs, hfs⟩ := h1
    simp only [] at hfs
    by_cases h : (renderSource s == "") = true
    · rw [if_pos h] at hfs
      exact Option.noConfusion hfs
    · rw [if_neg h] at hfs
      refine ⟨s, hs, by simpa using h, ?_⟩
      exact (Option.some.inj hfs).symm
  · intro text
    refine ⟨?_, ?_, ?_, ?_, ?_⟩
    · intro h
      simp [chooseTag, h]
    · intro h1 h2
      simp [chooseTag, h1, h2]
    · intro h1 h2 h3
      simp [chooseTag, h1, h2, h3]
    · intro h1 h2 h3 h4
      simp [chooseTag, h1, h2, h3, h4]
    · intro h1 h2 h3 h4
      constructor <;> intro h5 <;> simp [chooseTag, h1, h2, h3, h4, h5]

/-- Witness for C7: the theorem applied at concrete inputs, discharging the
membership and pattern hypotheses by evaluation. -/
theorem build_tagged_evidence_spec_witness :
    chooseTag "Revenue grew in 2024" = "[stat]" ∧
    (∃ s ∈ (⟨[⟨some "A", some "shows 3.5 uplift", none⟩], [], []⟩ :
          ResearchBundle).sources.take 12,
      renderSource s ≠ "" ∧
      "[stat] A — shows 3.5 uplift" =
        chooseTag (renderSource s) ++ " " ++ renderSource s) :=
  ⟨((build_tagged_evidence_spec ⟨[], [], []⟩).2.2.2.2.2.2 "Revenue grew in 2024").1
      (by decide),
   (build_tagged_evidence_spec
        ⟨[⟨some "A", some "shows 3.5 uplift", none⟩], [], []⟩).2.2.2.2.2.1
      "[stat] A — shows 3.5 uplift" (by decide)⟩

/-! ## Outline lemmas (C4, C5, C10) -/

theorem string_append_ne {pre topic other : String}
    (h : other.length < pre.length) : pre ++ topic ≠ other := by
  intro he
  have hlen := congrArg String.length he
  rw [String.length_append] at hlen
  omega

/-- No body-section title ever collides with `"Introduction"` or
`"Conclusion"`, whatever the topic: the templated titles extend a prefix
longer than either, and the fixed titles differ outright. -/
theorem core_sections_getD_ne (topic : String) (i : ℕ) :
    (core_sections topic).getD (i % 9) "" ≠ "Introduction" ∧
    (core_sections topic).getD (i % 9) "" ≠ "Conclusion" := by
  have h9 : i % 9 < 9 := Nat.mod_lt _ (by norm_num)
  set k := i % 9 with hk
  interval_cases k <;>
    simp only [core_sections, List.getD_cons_zero, List.getD_cons_succ] <;>
    constructor <;>
    first
      | exact string_append_ne (by decide)
      | decide

/-- The non-Introduction/Conclusion H2 predicate used by `h2Indices`. -/
theorem h2Indices_base (concl : OutlineNode)
    (hconcl : (concl.level == "h2" && !(concl.title == "Introduction") &&
      !(concl.title == "Conclusion")) = false) :
    ∀ (L : List OutlineNode) (n : ℕ),
      (∀ x ∈ L, (x.level == "h2" && !(x.title == "Introduction") &&
        !(x.title == "Conclusion")) = true) →
      (List.enumFrom n (L ++ [concl])).filterMap (fun p =>
          if p.2.level == "h2" && !(p.2.title == "Introduction") &&
            !(p.2.title == "Conclusion")
          then some p.1 else none) = List.range' n L.length := by
  intro L
  induction L with
  | nil =>
    intro n _
    simp [List.filterMap, hconcl]
  | cons x rest ih =>
    intro n hall
    rw [List.cons_append]
    have hx := hall x (List.mem_cons_self _ _)
    rw [show List.enumFrom n (x :: (rest ++ [concl])) =
        (n, x) :: List.enumFrom (n + 1) (rest ++ [concl]) from rfl]
    rw [List.filterMap_cons]
    simp only [hx, if_true]
    rw [ih (n + 1) (fun y hy => hall y (List.mem_cons_of_mem _ hy))]
    rw [List.length_cons, List.range'_succ n rest.length 1]

theorem insertIdx_length_append {α : Type} (L B : List α) (x : α) :
    List.insertIdx L.length x (L ++ B) = L ++ x :: B := by
  induction L with
  | nil => rfl
  | cons a t ih => simpa using ih

theorem zip_self {α : Type} : ∀ l : List α, l.zip l = l.map (fun x => (x, x)) := by
  intro l
  induction l with
  | nil => rfl
  | cons a t ih => simp [List.zip_cons_cons, ih]

theorem foldl_insertIdx (g : ℕ → OutlineNode) :
    ∀ (m : ℕ) (A B : List OutlineNode), A.length = 2 →
      (List.range m).foldl (fun acc j => List.insertIdx (1 + j + 1) (g j) acc)
          (A ++ B) =
        A ++ (List.range m).map g ++ B := by
  intro m
  induction m with
  | zero => intro A B _; simp
  | succ k ih =>
    intro A B hA
    rw [List.range_succ, List.foldl_append, ih A B hA]
    simp only [List.foldl_cons, List.foldl_nil]
    have hpos : 1 + k + 1 = (A ++ (List.range k).map g).length := by
      simp [hA]
      omega
    rw [hpos, insertIdx_length_append, List.map_append]
    simp [List.append_assoc]

theorem num_h2_bounds (t : ℕ) : 5 ≤ num_h2_of t ∧ num_h2_of t ≤ 10 := by
  rw [num_h2_of]
  split
  · omega
  · split
    · omega
    · omega

theorem enum_cons_eq {α : Type} (a : α) (l : List α) :
    (a :: l).enum = (0, a) :: List.enumFrom 1 l := rfl

theorem h2Indices_outlineBase (topic : String) (t : ℕ) :
    h2Indices (outlineBase topic t) = List.range' 1 (num_h2_of t) := by
  rw [h2Indices, outlineBase, List.append_assoc, List.singleton_append,
    enum_cons_eq, List.filterMap_cons]
  have hintro : ((⟨"h2", "Introduction", introWords t⟩ : OutlineNode).level == "h2" &&
      !((⟨"h2", "Introduction", introWords t⟩ : OutlineNode).title == "Introduction") &&
      !((⟨"h2", "Introduction", introWords t⟩ : OutlineNode).title == "Conclusion")) =
      false := rfl
  simp only [hintro, Bool.false_eq_true, if_false]
  rw [h2Indices_base (⟨"h2", "Conclusion", introWords t⟩ : OutlineNode)
    (rfl : (false : Bool) = false) _ 1 ?hall]
  · rw [List.length_map, List.length_range]
  case hall =>
    intro x hx
    rw [List.mem_map] at hx
    obtain ⟨i, _, rfl⟩ := hx
    have hne := core_sections_getD_ne topic i
    simp only [Bool.and_eq_true, beq_self_eq_true, Bool.not_eq_true', true_and]
    exact ⟨beq_eq_false_iff_ne.mpr hne.1, beq_eq_false_iff_ne.mpr hne.2⟩

/-- Closed form of `generate_outline`: Introduction, the first body section,
then all `max 1 (num_h2/3)` H3 nodes in a block (each of Python's
`list.insert` calls after the first lands just before the second body
section, because the earlier insertions have shifted the pre-computed
`h2_indices`), then the remaining body sections and Conclusion. -/
theorem generate_outline_eq (topic heading : String) (t : ℕ) :
    generate_outline topic heading t =
      [⟨"h2", "Introduction", introWords t⟩,
       ⟨"h2", (core_sections topic).getD (0 % 9) "", perSection t⟩] ++
      (List.range (max 1 (num_h2_of t / 3))).map
        (fun j => ⟨"h3", h3_variants.getD (j % 5) "", h3Words t⟩) ++
      ((List.range (num_h2_of t - 1)).map
        (fun i =>
          ⟨"h2", (core_sections topic).getD ((i + 1) % 9) "", perSection t⟩) ++
       [⟨"h2", "Conclusion", introWords t⟩]) := by
  have hnum := num_h2_bounds t
  have hm_le : max 1 (num_h2_of t / 3) ≤ num_h2_of t := by omega
  show ((h2Indices (outlineBase topic t)).take
      (max 1 ((h2Indices (outlineBase topic t)).length / 3))).enum.foldl
      (fun acc jp =>
        List.insertIdx (jp.2 + 1)
          ⟨"h3", h3_variants.getD (jp.1 % 5) "", h3Words t⟩ acc)
      (outlineBase topic t) = _
  rw [h2Indices_outlineBase]
  rw [show (List.range' 1 (num_h2_of t)).length = num_h2_of t from
    List.length_range' _ _ _]
  rw [List.range'_eq_map_range, ← List.map_take, List.take_range,
    min_eq_left hm_le, List.enum_map, List.enum_eq_zip_range, List.length_range,
    zip_self, List.map_map, List.foldl_map]
  have hbase : outlineBase topic t =
      ([⟨"h2", "Introduction", introWords t⟩,
        ⟨"h2", (core_sections topic).getD (0 % 9) "", perSection t⟩] :
          List OutlineNode) ++
      ((List.range (num_h2_of t - 1)).map
        (fun i =>
          ⟨"h2", (core_sections topic).getD ((i + 1) % 9) "", perSection t⟩) ++
       [⟨"h2", "Conclusion", introWords t⟩]) := by
    rw [outlineBase]
    obtain ⟨k, hk⟩ : ∃ k, num_h2_of t = k + 1 := ⟨num_h2_of t - 1, by omega⟩
    rw [hk, List.range_succ_eq_map]
    simp only [List.map_cons, List.map_map, Nat.add_sub_cancel]
    simp only [List.singleton_append, List.cons_append, List.nil_append,
      List.append_assoc]
    rfl
  rw [hbase]
  exact foldl_insertIdx _ _ _ _ rfl

theorem bodyH2Count_generate (topic heading : String) (t : ℕ) :
    bodyH2Count (generate_outline topic heading t) = num_h2_of t := by
  have hnum := num_h2_bounds t
  rw [bodyH2Count, generate_outline_eq, List.filter_append, List.filter_append,
    List.filter_append]
  have hA : ([⟨"h2", "Introduction", introWords t⟩,
      ⟨"h2", (core_sections topic).getD (0 % 9) "", perSection t⟩] :
        List OutlineNode).filter
      (fun nd => nd.level == "h2" && !(nd.title == "Introduction") &&
        !(nd.title == "Conclusion")) =
      [⟨"h2", (core_sections topic).getD (0 % 9) "", perSection t⟩] := by
    have hne := core_sections_getD_ne topic 0
    rw [List.filter_cons, List.filter_cons, List.filter_nil]
    simp only [Bool.and_eq_true, beq_self_eq_true, Bool.not_eq_true', true_and,
      beq_eq_false_iff_ne, ne_eq, beq_iff_eq, Bool.not_eq_true, Bool.and_eq_false_iff]
    simp
    exact ⟨hne.1, hne.2⟩
  have hM : ((List.range (max 1 (num_h2_of t / 3))).map
      (fun j => (⟨"h3", h3_variants.getD (j % 5) "", h3Words t⟩ : OutlineNode))).filter
      (fun nd => nd.level == "h2" && !(nd.title == "Introduction") &&
        !(nd.title == "Conclusion")) = [] := by
    rw [List.filter_eq_nil_iff]
    intro a ha
    rw [List.mem_map] at ha
    obtain ⟨j, _, rfl⟩ := ha
    simp
  have hR : ((List.range (num_h2_of t - 1)).map
      (fun i => (⟨"h2", (core_sections topic).getD ((i + 1) % 9) "",
        perSection t⟩ : OutlineNode))).filter
      (fun nd => nd.level == "h2" && !(nd.title == "Introduction") &&
        !(nd.title == "Conclusion")) =
      (List.range (num_h2_of t - 1)).map
        (fun i => (⟨"h2", (core_sections topic).getD ((i + 1) % 9) "",
          perSection t⟩ : OutlineNode)) := by
    rw [List.filter_eq_self]
    intro a ha
    rw [List.mem_map] at ha
    obtain ⟨i, _, rfl⟩ := ha
    have hne := core_sections_getD_ne topic (i + 1)
    simp only [Bool.and_eq_true, beq_self_eq_true, true_and, Bool.not_eq_true',
      beq_eq_false_iff_ne, ne_eq]
    exact ⟨hne.1, hne.2⟩
  have hC : ([⟨"h2", "Conclusion", introWords t⟩] : List OutlineNode).filter
      (fun nd => nd.level == "h2" && !(nd.title == "Introduction") &&
        !(nd.title == "Conclusion")) = [] := rfl
  rw [hA, hM, hR, hC]
  simp only [List.length_append, List.length_cons, List.length_nil,
    List.length_map, List.length_range]
  omega

theorem num_h2_mono {t u : ℕ} (h : t ≤ u) : num_h2_of t ≤ num_h2_of u := by
  rw [num_h2_of, num_h2_of]
  split_ifs <;> omega

/-- Claim C4: the number of body H2 sections produced by `generate_outline`
is exactly 5 for `target_word_count ≤ 700` (700 included), exactly 10 for
`≥ 3000` (3000 included), always within `[5, 10]`, and monotonically
non-decreasing in the target word count. -/
theorem generate_outline_body_count (topic heading : String) (t u : ℕ)
    (ht : 0 < t) (htu : t ≤ u) :
    (t ≤ 700 → bodyH2Count (generate_outline topic heading t) = 5) ∧
    (3000 ≤ t → bodyH2Count (generate_outline topic heading t) = 10) ∧
    5 ≤ bodyH2Count (generate_outline topic heading t) ∧
    bodyH2Count (generate_outline topic heading t) ≤ 10 ∧
    bodyH2Count (generate_outline topic heading t) ≤
      bodyH2Count (generate_outline topic heading u) ∧
    (t = 700 → bodyH2Count (generate_outline topic heading t) = 5) ∧
    (t = 3000 → bodyH2Count (generate_outline topic heading t) = 10) := by
  rw [bodyH2Count_generate, bodyH2Count_generate]
  have h1 := num_h2_bounds t
  refine ⟨?_, ?_, h1.1, h1.2, num_h2_mono htu, ?_, ?_⟩
  · intro h
    rw [num_h2_of, if_pos h]
  · intro h
    rw [num_h2_of, if_neg (by omega), if_pos h]
  · intro h
    subst h
    decide
  · intro h
    subst h
    decide

/-- Witness for C4: concrete word counts. -/
theorem generate_outline_body_count_witness :
    5 ≤ bodyH2Count (generate_outline "coffee brewing" "A Guide to Coffee Brewing" 1500) ∧
    bodyH2Count (generate_outline "coffee brewing" "A Guide to Coffee Brewing" 1500) ≤
      bodyH2Count (generate_outline "coffee brewing" "A Guide to Coffee Brewing" 2000) :=
  ⟨(generate_outline_body_count "coffee brewing" "A Guide to Coffee Brewing" 1500 2000
      (by decide) (by decide)).2.2.1,
   (generate_outline_body_count "coffee brewing" "A Guide to Coffee Brewing" 1500 2000
      (by decide) (by decide)).2.2.2.2.1⟩

theorem h2WordSum_generate (topic heading : String) (t : ℕ) :
    h2WordSum (generate_outline topic heading t) =
      2 * introWords t + num_h2_of t * perSection t := by
  have hnum := num_h2_bounds t
  rw [h2WordSum, generate_outline_eq, List.filter_append, List.filter_append,
    List.filter_append]
  have hA : ([⟨"h2", "Introduction", introWords t⟩,
      ⟨"h2", (core_sections topic).getD (0 % 9) "", perSection t⟩] :
        List OutlineNode).filter (fun nd => nd.level == "h2") =
      [⟨"h2", "Introduction", introWords t⟩,
       ⟨"h2", (core_sections topic).getD (0 % 9) "", perSection t⟩] := rfl
  have hM : ((List.range (max 1 (num_h2_of t / 3))).map
      (fun j => (⟨"h3", h3_variants.getD (j % 5) "", h3Words t⟩ : OutlineNode))).filter
      (fun nd => nd.level == "h2") = [] := by
    rw [List.filter_eq_nil_iff]
    intro a ha
    rw [List.mem_map] at ha
    obtain ⟨j, _, rfl⟩ := ha
    simp
  have hR : ((List.range (num_h2_of t - 1)).map
      (fun i => (⟨"h2", (core_sections topic).getD ((i + 1) % 9) "",
        perSection t⟩ : OutlineNode))).filter (fun nd => nd.level == "h2") =
      (List.range (num_h2_of t - 1)).map
        (fun i => (⟨"h2", (core_sections topic).getD ((i + 1) % 9) "",
          perSection t⟩ : OutlineNode)) := by
    rw [List.filter_eq_self]
    intro a ha
    rw [List.mem_map] at ha
    obtain ⟨i, _, rfl⟩ := ha
    simp
  have hC : ([⟨"h2", "Conclusion", introWords t⟩] : List OutlineNode).filter
      (fun nd => nd.level == "h2") = [⟨"h2", "Conclusion", introWords t⟩] := rfl
  rw [hA, hM, hR, hC]
  obtain ⟨k, hk⟩ : ∃ k, num_h2_of t = k + 1 := ⟨num_h2_of t - 1, by omega⟩
  rw [hk]
  simp only [List.map_append, List.sum_append, List.map_cons, List.map_nil,
    List.sum_cons, List.sum_nil, List.map_map, Nat.add_sub_cancel]
  have hconst : ((List.range k).map (OutlineNode.target_words ∘
      (fun i => (⟨"h2", (core_sections topic).getD ((i + 1) % 9) "",
        perSection t⟩ : OutlineNode)))).sum = k * perSection t := by
    rw [show (OutlineNode.target_words ∘ (fun i =>
        (⟨"h2", (core_sections topic).getD ((i + 1) % 9) "",
          perSection t⟩ : OutlineNode))) = (fun _ => perSection t) from rfl]
    rw [List.map_const', List.sum_replicate, List.length_range, smul_eq_mul]
  rw [hconst]
  ring

/-- Claim C5 (amended): for every `target_word_count ≥ 830`, the sum of the
H2 target word counts (Introduction + body + Conclusion) is within 10 words
of the requested total (10 = one floor-rounding per section, at most 10
sections).  Below that, the `max(120, …)` / `max(200, …)` floors dominate and
the sum can exceed the request by hundreds of words (see the
counterexample), so the unamended "within rounding tolerance for every
positive target" is false. -/
theorem generate_outline_h2_sum (topic heading : String) (t : ℕ) (ht : 830 ≤ t) :
    h2WordSum (generate_outline topic heading t) ≤ t + 10 ∧
    t ≤ h2WordSum (generate_outline topic heading t) + 10 := by
  rw [h2WordSum_generate, introWords, perSection, bodyWords, introWords, num_h2_of]
  split_ifs with h1 h2
  · omega
  · rw [show (max 1 10 : ℕ) = 10 from rfl]
    omega
  · rcases (show min 10 (max 5 (5 + (t - 700) * 5 / 2300)) = 5 ∨
        min 10 (max 5 (5 + (t - 700) * 5 / 2300)) = 6 ∨
        min 10 (max 5 (5 + (t - 700) * 5 / 2300)) = 7 ∨
        min 10 (max 5 (5 + (t - 700) * 5 / 2300)) = 8 ∨
        min 10 (max 5 (5 + (t - 700) * 5 / 2300)) = 9 ∨
        min 10 (max 5 (5 + (t - 700) * 5 / 2300)) = 10 by omega) with
      hv | hv | hv | hv | hv | hv <;>
      rw [hv] <;>
      [rw [show (max 1 5 : ℕ) = 5 from rfl];
       rw [show (max 1 6 : ℕ) = 6 from rfl];
       rw [show (max 1 7 : ℕ) = 7 from rfl];
       rw [show (max 1 8 : ℕ) = 8 from rfl];
       rw [show (max 1 9 : ℕ) = 9 from rfl];
       rw [show (max 1 10 : ℕ) = 10 from rfl]] <;>
      omega

/-- Witness for C5 (amended): the spec's own scenario, 1500 words. -/
theorem generate_outline_h2_sum_witness :
    h2WordSum (generate_outline "coffee brewing" "A Guide to Coffee Brewing" 1500) ≤
        1500 + 10 ∧
    1500 ≤ h2WordSum
        (generate_outline "coffee brewing" "A Guide to Coffee Brewing" 1500) + 10 :=
  generate_outline_h2_sum "coffee brewing" "A Guide to Coffee Brewing" 1500 (by decide)

/-- Counterexample for C5 as stated: at `target_word_count = 300` the floors
(`Introduction`/`Conclusion` at 120 words minimum, body at 200 words minimum
split into five 120-word-minimum sections) force an H2 word sum of 840,
which is 540 words away from the requested 300 — not within any rounding
tolerance. -/
theorem generate_outline_h2_sum_counterexample :
    ¬(h2WordSum (generate_outline "coffee brewing" "A Guide" 300) ≤ 300 + 10 ∧
      300 ≤ h2WordSum (generate_outline "coffee brewing" "A Guide" 300) + 10) := by
  rw [h2WordSum_generate]
  decide

/-- Claim C10: for every topic, heading and positive target word count, the
outline starts with an H2 "Introduction", ends with an H2 "Conclusion",
its second entry is a body H2 immediately followed (third entry) by an H3
(titled "Key Takeaways", the first variant), and every node's target word
count is at least 80, every H2 node's at least 120. -/
theorem generate_outline_structure (topic heading : String) (t : ℕ) (ht : 0 < t) :
    (generate_outline topic heading t).head? =
      some ⟨"h2", "Introduction", introWords t⟩ ∧
    (generate_outline topic heading t).getLast? =
      some ⟨"h2", "Conclusion", introWords t⟩ ∧
    ((generate_outline topic heading t).getD 1 default).level = "h2" ∧
    ((generate_outline topic heading t).getD 1 default).title ≠ "Introduction" ∧
    ((generate_outline topic heading t).getD 1 default).title ≠ "Conclusion" ∧
    ((generate_outline topic heading t).getD 2 default).level = "h3" ∧
    ((generate_outline topic heading t).getD 2 default).title = "Key Takeaways" ∧
    (∀ nd ∈ generate_outline topic heading t,
      80 ≤ nd.target_words ∧ (nd.level = "h2" → 120 ≤ nd.target_words)) := by
  have hnum := num_h2_bounds t
  rw [generate_outline_eq]
  have hm1 : max 1 (num_h2_of t / 3) = (max 1 (num_h2_of t / 3) - 1) + 1 := by omega
  refine ⟨rfl, ?_, ?_, ?_, ?_, ?_, ?_, ?_⟩
  · rw [← List.append_assoc]
    exact List.getLast?_concat _
  · rfl
  · exact (core_sections_getD_ne topic 0).1
  · exact (core_sections_getD_ne topic 0).2
  · rw [hm1, List.range_succ_eq_map]
    rfl
  · rw [hm1, List.range_succ_eq_map]
    rfl
  · intro nd hnd
    simp only [List.mem_append, List.mem_cons, List.mem_map, List.mem_singleton,
      List.not_mem_nil, or_false] at hnd
    rcases hnd with ((rfl | rfl) | ⟨j, _, rfl⟩) | ⟨i, _, rfl⟩ | rfl <;> dsimp only
    · constructor
      · rw [introWords]
        omega
      · intro _
        rw [introWords]
        omega
    · constructor
      · rw [perSection]
        omega
      · intro _
        rw [perSection]
        omega
    · constructor
      · rw [h3Words]
        omega
      · intro hlev
        exact absurd hlev (by decide)
    · constructor
      · rw [perSection]
        omega
      · intro _
        rw [perSection]
        omega
    · constructor
      · rw [introWords]
        omega
      · intro _
        rw [introWords]
        omega

/-- Witness for C10: the spec's scenario inputs. -/
theorem generate_outline_structure_witness :
    (generate_outline "coffee brewing" "A Guide to Coffee Brewing" 1500).head? =
      some ⟨"h2", "Introduction", introWords 1500⟩ :=
  (generate_outline_structure "coffee brewing" "A Guide to Coffee Brewing" 1500
    (by decide)).1

end SEOBlog
